import Mathlib

/-!
# custom::vector (src/vector.h): a shallow embedding

The container is the triple of members `data`, `numCapacity`, `numElements`.
Memory is explicit: a flat store of element slots addressed by natural numbers,
address `0` being `nullptr`.  A slot holds `some t` while an object of value `t`
lives in it and `none` while it is raw.  The allocator (`std::allocator`, not
part of the repository) is modelled by `Heap.allocate` and `Heap.deallocate`.

`size_t` is 64 bits wide: every `size_t` operation of the source (`*`, `++`,
`--`, `- 1`) is reduced modulo `2 ^ 64`.  Pointer arithmetic `data + i` is
address addition.  Arguments of type `size_t` are natural numbers, understood
to be below `2 ^ 64`.

An argument of type `const T&` or `T&&` is a reference (`Ref`): the member
function reads the object it refers to at the point where the source reads it,
in the memory as it is then.

An operation that can throw `std::bad_alloc` returns `Except`: `.ok s` is the
normal return with the state `s`, `.error s` is the throw with the state `s`
that the program is in when the exception leaves the operation.
-/

namespace custom

variable {T : Type}

/-! ## size_t -/

/-- Number of values of `size_t`. -/
def SIZE_RANGE : Nat := 2 ^ 64

/-- Reduction of an arithmetic result to `size_t`. -/
def wrap (n : Nat) : Nat := n % SIZE_RANGE

/-- The `size_t` subtraction `a - b` for `b` at most `2 ^ 64`. -/
def size_sub (a b : Nat) : Nat := wrap (SIZE_RANGE + a - b)

/-! ## Loops -/

/-- The loop `for (i = lo; n iterations; i++) s = body i s`. -/
def forLoop {σ : Type} (body : Nat → σ → σ) : Nat → Nat → σ → σ
  | _, 0, s => s
  | lo, n + 1, s => forLoop body (lo + 1) n (body lo s)

/-- The loop `for (size_t i = lo; i < hi; i++) s = body i s`. -/
def forRange {σ : Type} (lo hi : Nat) (body : Nat → σ → σ) (s : σ) : σ :=
  forLoop body lo (hi - lo) s

/-! ## Memory and the allocator -/

/-- Memory: the object living in each slot, the highest address the allocator
has handed out or skipped, and the number of slots it can still hand out. -/
structure Heap (T : Type) where
  mem : Nat → Option T
  brk : Nat
  avail : Nat

/-- A heap holding no object, with `avail` slots to hand out. -/
def Heap.init (avail : Nat) : Heap T := ⟨fun _ => none, 0, avail⟩

/-- Model of `alloc.allocate(n)`: when `n` slots are available, a fresh block of
`n` raw slots starting right above `brk` (never null, distinct from every
earlier block also when `n` is `0`), one slot being left unused after it;
otherwise `std::bad_alloc` with the heap untouched. -/
def Heap.allocate (h : Heap T) (n : Nat) : Except (Heap T) (Nat × Heap T) :=
  if n ≤ h.avail then
    .ok (h.brk + 1,
      { mem := fun a => if h.brk + 1 ≤ a ∧ a < h.brk + 1 + n then none else h.mem a
        brk := h.brk + 1 + n
        avail := h.avail - n })
  else .error h

/-- Model of `alloc.deallocate(p, n)`: the `n` slots become available again;
nothing happens for the null pointer. -/
def Heap.deallocate (h : Heap T) (p n : Nat) : Heap T :=
  if p = 0 then h else { h with avail := h.avail + n }

/-- Puts the slot content `c` at address `p`. -/
def Heap.store (h : Heap T) (p : Nat) (c : Option T) : Heap T :=
  { h with mem := fun a => if a = p then c else h.mem a }

/-- Model of `alloc.construct(p, t)`: an object of value `t` starts living at `p`. -/
def Heap.construct (h : Heap T) (p : Nat) (t : T) : Heap T := h.store p (some t)

/-- Model of `alloc.construct(p, *q)` and of `new (p) T(std::move(*q))`: the
object at `p` gets the value of the object at `q` (a raw source slot gives a
raw slot). -/
def Heap.construct_from (h : Heap T) (p q : Nat) : Heap T := h.store p (h.mem q)

/-- Model of the element assignment `*p = *q`. -/
def Heap.assign_from (h : Heap T) (p q : Nat) : Heap T := h.store p (h.mem q)

/-- Model of `alloc.destroy(p)`: the object at `p` stops living. -/
def Heap.destroy (h : Heap T) (p : Nat) : Heap T := h.store p none

/-- What an argument of type `const T&` or `T&&` refers to: an object of the
caller that lives outside the modelled memory (a temporary, a variable), given
by its value, or the object in the slot `q` of the modelled memory (an element
of a container). -/
inductive Ref (T : Type) where
  | val (t : T)
  | slot (q : Nat)

/-- The object a reference gives when it is read in the memory `h`. -/
def Ref.read : Ref T → Heap T → Option T
  | .val t, _ => some t
  | .slot q, h => h.mem q

/-- Model of `alloc.construct(p, t)` for a reference `t`: the object at `p`
gets what the reference gives when it is read now. -/
def Heap.construct_ref (h : Heap T) (p : Nat) (t : Ref T) : Heap T := h.store p (t.read h)

/-! ## The container -/

/-- The data members of `custom::vector` (the allocator member is stateless). -/
structure vector where
  data : Nat
  numCapacity : Nat
  numElements : Nat
deriving DecidableEq, Repr

/-- Outcome of a member function that may throw. -/
abbrev Outcome (T : Type) := Except (Heap T × vector) (Heap T × vector)

/-- `size()`. -/
def vector.size (v : vector) : Nat := v.numElements

/-- `capacity()`. -/
def vector.capacity (v : vector) : Nat := v.numCapacity

/-- `empty()`. -/
def vector.empty (v : vector) : Bool := if v.numCapacity = 0 then true else false

/-- `operator[](index)`: the content of slot `data[index]`. -/
def vector.index (v : vector) (h : Heap T) (index : Nat) : Option T := h.mem (v.data + index)

/-- The element write `(*this)[index] = t`. -/
def vector.set (v : vector) (h : Heap T) (index : Nat) (t : T) : Heap T :=
  h.store (v.data + index) (some t)

/-- `vector(const A& a)`. -/
def vector.ctor : vector := { data := 0, numElements := 0, numCapacity := 0 }

/-- `vector(size_t num, const T& t, const A& a)`. -/
def vector.ctor_fill (h : Heap T) (num : Nat) (t : T) : Except (Heap T) (Heap T × vector) :=
  if num > 0 then
    match h.allocate num with
    | .error h1 => .error h1
    | .ok (data, h1) =>
      .ok (forRange 0 num (fun i m => m.construct (data + i) t) h1,
           { data := data, numElements := num, numCapacity := num })
  else .ok (h, { data := 0, numElements := num, numCapacity := num })

/-- The loop over the initializer list: `*it` is constructed at
`data[it - l.begin()]`. -/
def construct_list (data : Nat) : List T → Nat → Heap T → Heap T
  | [], _, m => m
  | x :: xs, i, m => construct_list data xs (i + 1) (m.construct (data + i) x)

/-- `vector(const std::initializer_list<T>& l, const A& a)`.  The constructor
assigns `data` only when the list is not empty; `indeterminate` is the value
the member holds otherwise. -/
def vector.ctor_list (h : Heap T) (l : List T) (indeterminate : Nat) :
    Except (Heap T) (Heap T × vector) :=
  let numElements := l.length
  let numCapacity := l.length
  if numElements > 0 then
    match h.allocate numElements with
    | .error h1 => .error h1
    | .ok (data, h1) =>
      .ok (construct_list data l 0 h1,
           { data := data, numElements := numElements, numCapacity := numCapacity })
  else .ok (h, { data := indeterminate, numElements := numElements, numCapacity := numCapacity })

/-- `vector(size_t num, const A& a)`. -/
def vector.ctor_default [Inhabited T] (h : Heap T) (num : Nat) :
    Except (Heap T) (Heap T × vector) :=
  if num > 0 then
    match h.allocate num with
    | .error h1 => .error h1
    | .ok (data, h1) =>
      .ok (forRange 0 num (fun i m => m.construct (data + i) default) h1,
           { data := data, numElements := num, numCapacity := num })
  else .ok (h, { data := 0, numElements := num, numCapacity := num })

/-- `vector(const vector& rhs)`. -/
def vector.ctor_copy (h : Heap T) (rhs : vector) : Except (Heap T) (Heap T × vector) :=
  if rhs.numCapacity > 0 then
    match h.allocate rhs.numElements with
    | .error h1 => .error h1
    | .ok (data, h1) =>
      .ok (forRange 0 rhs.numElements (fun i m => m.construct_from (data + i) (rhs.data + i)) h1,
           { data := data, numElements := rhs.numElements, numCapacity := rhs.numElements })
  else .ok (h, { data := 0, numElements := 0, numCapacity := 0 })

/-- `vector(vector&& rhs)`: the new container and what is left of `rhs`. -/
def vector.ctor_move (rhs : vector) : vector × vector :=
  let data := rhs.data
  let rhs := { rhs with data := 0 }
  let numElements := rhs.numElements
  let rhs := { rhs with numElements := 0 }
  let numCapacity := rhs.numCapacity
  let rhs := { rhs with numCapacity := 0 }
  ({ data := data, numElements := numElements, numCapacity := numCapacity }, rhs)

/-- `reserve(newCapacity)`. -/
def vector.reserve (v : vector) (h : Heap T) (newCapacity : Nat) : Outcome T :=
  if newCapacity ≤ v.numCapacity then .ok (h, v)
  else
    match h.allocate newCapacity with
    | .error h1 => .error (h1, v)
    | .ok (dataNew, h1) =>
      let h2 := forRange 0 v.numElements (fun i m => m.construct_from (dataNew + i) (v.data + i)) h1
      let h3 := forRange 0 v.numElements (fun i m => m.destroy (v.data + i)) h2
      let h4 := h3.deallocate v.data v.numCapacity
      .ok (h4, { v with data := dataNew, numCapacity := newCapacity })

/-- `resize(newElements)`. -/
def vector.resize [Inhabited T] (v : vector) (h : Heap T) (newElements : Nat) : Outcome T :=
  if newElements = v.numElements then .ok (h, v)
  else if newElements < v.numElements then
    .ok (forRange newElements v.numElements (fun i m => m.destroy (v.data + i)) h,
         { v with numElements := newElements })
  else
    match (if newElements > v.numCapacity then v.reserve h newElements else .ok (h, v)) with
    | .error s => .error s
    | .ok (h1, v1) =>
      .ok (forRange v1.numElements newElements (fun i m => m.construct (v1.data + i) default) h1,
           { v1 with numElements := newElements })

/-- `resize(newElements, t)`, `t` being a `const T&`: it is read in each
iteration of the constructing loop, after `reserve`. -/
def vector.resize_fill (v : vector) (h : Heap T) (newElements : Nat) (t : Ref T) :
    Outcome T :=
  if newElements = v.numElements then .ok (h, v)
  else if newElements < v.numElements then
    .ok (forRange newElements v.numElements (fun i m => m.destroy (v.data + i)) h,
         { v with numElements := newElements })
  else
    match (if newElements > v.numCapacity then v.reserve h newElements else .ok (h, v)) with
    | .error s => .error s
    | .ok (h1, v1) =>
      .ok (forRange v1.numElements newElements (fun i m => m.construct_ref (v1.data + i) t) h1,
           { v1 with numElements := newElements })

/-- `shrink_to_fit()`. -/
def vector.shrink_to_fit (v : vector) (h : Heap T) : Outcome T :=
  if v.numElements = v.numCapacity then .ok (h, v)
  else if v.numElements = 0 then
    if v.data ≠ 0 then
      .ok (h.deallocate v.data v.numCapacity, { v with data := 0, numCapacity := 0 })
    else .ok (h, v)
  else
    match h.allocate v.numElements with
    | .error h1 => .error (h1, v)
    | .ok (newData, h1) =>
      let h2 := forRange 0 v.numElements
        (fun i m => (m.construct_from (newData + i) (v.data + i)).destroy (v.data + i)) h1
      let h3 := h2.deallocate v.data v.numCapacity
      .ok (h3, { v with data := newData, numCapacity := v.numElements })

/-- `push_back(const T& t)`.  The reference is read in the last statement,
after both calls of `reserve`.  `push_back(T&& t)` has the same body with
`std::move(t)` in the last statement; as in `reserve`, constructing from a
moved object gives its value. -/
def vector.push_back (v : vector) (h : Heap T) (t : Ref T) : Outcome T :=
  match (if v.size = 0 then v.reserve h 1 else .ok (h, v)) with
  | .error s => .error s
  | .ok (h1, v1) =>
    match (if v1.size = v1.capacity then v1.reserve h1 (wrap (v1.capacity * 2))
           else .ok (h1, v1)) with
    | .error s => .error s
    | .ok (h2, v2) =>
      .ok (h2.construct_ref (v2.data + v2.numElements) t,
           { v2 with numElements := wrap (v2.numElements + 1) })

/-- `clear()`. -/
def vector.clear (v : vector) (h : Heap T) : Heap T × vector :=
  let h1 := if v.data ≠ 0 then forRange 0 v.numElements (fun i m => m.destroy (v.data + i)) h
            else h
  (h1, { v with numElements := 0 })

/-- `pop_back()`. -/
def vector.pop_back (v : vector) (h : Heap T) : Heap T × vector :=
  if v.data ≠ 0 then
    (h.destroy (v.data + size_sub v.numElements 1),
     { v with numElements := size_sub v.numElements 1 })
  else (h, v)

/-! ### Members taking a second container
The containers are objects of a store, addressed by `this` and `rhs`, so that
`this != &rhs` is a comparison of addresses. -/

/-- `swap(vector& rhs)`. -/
def vector.swap (o : Nat → vector) (this rhs : Nat) : Nat → vector :=
  let tempData := (o this).data
  let o := Function.update o this { o this with data := (o rhs).data }
  let o := Function.update o rhs { o rhs with data := tempData }
  let tempNumElements := (o this).numElements
  let o := Function.update o this { o this with numElements := (o rhs).numElements }
  let o := Function.update o rhs { o rhs with numElements := tempNumElements }
  let tempNumCapacity := (o this).numCapacity
  let o := Function.update o this { o this with numCapacity := (o rhs).numCapacity }
  Function.update o rhs { o rhs with numCapacity := tempNumCapacity }

/-- `operator=(const vector& rhs)`. -/
def vector.assign_copy (h : Heap T) (o : Nat → vector) (this rhs : Nat) :
    Except (Heap T × (Nat → vector)) (Heap T × (Nat → vector)) :=
  if this ≠ rhs then
    if (o rhs).numElements > (o this).numCapacity then
      match h.allocate (o rhs).numElements with
      | .error h1 => .error (h1, o)
      | .ok (newData, h1) =>
        let h2 := forRange 0 (o rhs).numElements
          (fun i m => m.construct_from (newData + i) ((o rhs).data + i)) h1
        let h3 := forRange 0 (o this).numElements (fun i m => m.destroy ((o this).data + i)) h2
        let h4 := h3.deallocate (o this).data (o this).numCapacity
        let o := Function.update o this { o this with data := newData }
        let o := Function.update o this { o this with numCapacity := (o rhs).numElements }
        .ok (h4, Function.update o this { o this with numElements := (o rhs).numElements })
    else
      let h1 := forRange 0 (o rhs).numElements
        (fun i m => if i < (o this).numElements
                    then m.assign_from ((o this).data + i) ((o rhs).data + i)
                    else m.construct_from ((o this).data + i) ((o rhs).data + i)) h
      let h2 := forRange (o rhs).numElements (o this).numElements
        (fun i m => m.destroy ((o this).data + i)) h1
      .ok (h2, Function.update o this { o this with numElements := (o rhs).numElements })
  else .ok (h, o)

/-- `operator=(vector&& rhs)`. -/
def vector.assign_move (h : Heap T) (o : Nat → vector) (this rhs : Nat) :
    Heap T × (Nat → vector) :=
  if this ≠ rhs then
    let h1 := forRange 0 (o this).numElements (fun i m => m.destroy ((o this).data + i)) h
    let h2 := h1.deallocate (o this).data (o this).numCapacity
    let o := Function.update o this { o this with data := (o rhs).data }
    let o := Function.update o this { o this with numElements := (o rhs).numElements }
    let o := Function.update o this { o this with numCapacity := (o rhs).numCapacity }
    let o := Function.update o rhs { o rhs with data := 0 }
    let o := Function.update o rhs { o rhs with numElements := 0 }
    (h2, Function.update o rhs { o rhs with numCapacity := 0 })
  else (h, o)

/-! ## reserve -/

/-- The heap `reserve(k)` leaves when it reallocates. -/
def reserve_heap (v : vector) (h : Heap T) (k : Nat) : Heap T :=
  match h.allocate k with
  | .error h1 => h1
  | .ok (dataNew, h1) =>
    ((forRange 0 v.numElements (fun i m => m.destroy (v.data + i))
      (forRange 0 v.numElements (fun i m => m.construct_from (dataNew + i) (v.data + i)) h1)
     ).deallocate v.data v.numCapacity)

/-! ## push_back and pop_back against a list -/

/-- The container `v` in the heap `h` holds exactly the elements of `l`, in a
block of its own that the allocator has handed out. -/
structure Represents (h : Heap T) (v : vector) (l : List T) : Prop where
  size_eq : v.numElements = l.length
  size_le : v.numElements ≤ v.numCapacity
  null_iff : v.data = 0 ↔ v.numCapacity = 0
  owned : v.data + v.numCapacity ≤ h.brk
  elems : ∀ i, i < l.length → h.mem (v.data + i) = l[i]?

/-- The container `v` satisfies both invariants and its block lies in the
part of memory the allocator of `h` has handed out. -/
structure Shape (h : Heap T) (v : vector) : Prop where
  size_le : v.numElements ≤ v.numCapacity
  null_iff : v.data = 0 ↔ v.numCapacity = 0
  owned : v.data + v.numCapacity ≤ h.brk

/-- The capacity `push_back` leaves, when nothing overflows. -/
def next_capacity (v : vector) : Nat :=
  if v.numElements = v.numCapacity then (if v.numCapacity = 0 then 1 else 2 * v.numCapacity)
  else v.numCapacity

/-! ## Sequences of push_back and pop_back -/

/-- A call of `push_back(t)` or of `pop_back()`, the argument of `push_back`
being given as an `α`: a reference for the calls on the container, a value for
their replay on a list. -/
inductive Op (α : Type) where
  | push_back (t : α)
  | pop_back

/-- The call whose argument is an object of the caller holding the value. -/
def Op.by_value : Op T → Op (Ref T)
  | .push_back t => .push_back (.val t)
  | .pop_back => .pop_back

/-- Performs one call on the container. -/
def Op.apply : Op (Ref T) → Heap T × vector → Outcome T
  | .push_back t, s => s.2.push_back s.1 t
  | .pop_back, s => .ok (s.2.pop_back s.1)

/-- Performs the calls of `ops` one after the other. -/
def run : List (Op (Ref T)) → Heap T × vector → Outcome T
  | [], s => .ok s
  | op :: ops, s =>
    match op.apply s with
    | .ok s1 => run ops s1
    | .error e => .error e

/-- Replays the calls on a list: `push_back` appends at the end, `pop_back`
removes the last element. -/
def replay : List (Op T) → List T → List T
  | [], l => l
  | .push_back t :: ops, l => replay ops (l ++ [t])
  | .pop_back :: ops, l => replay ops l.dropLast

/-- No `pop_back` of `ops` is performed while the size is `0`, the size being
`n` at the start. -/
def admissible : List (Op T) → Nat → Bool
  | [], _ => true
  | .push_back _ :: ops, n => admissible ops (n + 1)
  | .pop_back :: ops, n => decide (0 < n) && admissible ops (n - 1)

/-- Number of `push_back` calls. -/
def count_push : List (Op T) → Nat
  | [] => 0
  | .push_back _ :: ops => count_push ops + 1
  | .pop_back :: ops => count_push ops

/-- Number of `pop_back` calls. -/
def count_pop : List (Op T) → Nat
  | [] => 0
  | .push_back _ :: ops => count_pop ops
  | .pop_back :: ops => count_pop ops + 1

/-! ## The doubling rule -/

/-- The capacity `c` is `0` for size `0`, and otherwise the power of two with
`c / 2 < n ≤ c`. -/
def Tight (n c : Nat) : Prop :=
  (n = 0 ∧ c = 0) ∨ ∃ k, c = 2 ^ k ∧ n ≤ c ∧ c < 2 * n

/-! ## The invariants of the data model -/

/-- The invariant `size ≤ capacity`. -/
def vector.size_le_capacity (v : vector) : Prop := v.numElements ≤ v.numCapacity

/-- The invariant: storage is absent if and only if the capacity is `0`. -/
def vector.null_iff_zero (v : vector) : Prop := v.data = 0 ↔ v.numCapacity = 0

instance (v : vector) : Decidable v.size_le_capacity := by
  unfold vector.size_le_capacity; infer_instance

instance (v : vector) : Decidable v.null_iff_zero := by
  unfold vector.null_iff_zero; infer_instance

/-- The state a member function leaves, whether it returns or throws. -/
def final {σ : Type} : Except σ σ → σ
  | .ok s => s
  | .error s => s

/-- The property `P` holds of the container a constructor has built. -/
def built (P : vector → Prop) : Except (Heap T) (Heap T × vector) → Prop
  | .ok s => P s.2
  | .error _ => True

/-- The block of `v` lies in the part of memory the allocator of `h` has
handed out. -/
def Heap.holds (h : Heap T) (v : vector) : Prop := v.data + v.numCapacity ≤ h.brk

instance (h : Heap T) (v : vector) : Decidable (h.holds v) := by
  unfold Heap.holds; infer_instance

/-- A heap whose only block starts at address 1 and holds the elements of `l`
followed by `slack` raw slots, with `avail` slots left to hand out: the heap
of the container `⟨1, l.length + slack, l.length⟩`. -/
def Heap.of_list (l : List T) (slack avail : Nat) : Heap T :=
  { mem := fun a => if 1 ≤ a then l[a - 1]? else none
    brk := 1 + l.length + slack
    avail := avail }

/-! ## Heaps and helpers used in the statements -/

/-- The heap the copy constructor leaves when it allocates. -/
def copy_heap (h : Heap T) (rhs : vector) : Heap T :=
  match h.allocate rhs.numElements with
  | .error h1 => h1
  | .ok (data, h1) =>
    forRange 0 rhs.numElements (fun i m => m.construct_from (data + i) (rhs.data + i)) h1

/-- `pop_back()` called `k` times. -/
def pop_back_n : Nat → Heap T × vector → Heap T × vector
  | 0, s => s
  | k + 1, s => pop_back_n k (s.2.pop_back s.1)

/-! ## The iterator -/

/-- The member `p` of `vector::iterator`. -/
structure iterator where
  p : Nat
deriving DecidableEq, Repr

/-- `begin()`. -/
def vector.begin (v : vector) : iterator := ⟨v.data⟩

/-- The member function `end()`. -/
def vector.end_ (v : vector) : iterator := ⟨v.data + v.numElements⟩

/-- `operator==`. -/
def iterator.eq (a rhs : iterator) : Bool := a.p == rhs.p

/-- `operator!=`. -/
def iterator.ne (a rhs : iterator) : Bool := a.p != rhs.p

/-- `operator*`: the content of the slot the iterator points at. -/
def iterator.deref (it : iterator) (h : Heap T) : Option T := h.mem it.p

/-- `operator++()`: the iterator after `++p`, which is also what is returned. -/
def iterator.inc (it : iterator) : iterator := ⟨it.p + 1⟩

/-- `operator++(int)`: the returned copy `temp` and the iterator after `++p`. -/
def iterator.inc_post (it : iterator) : iterator × iterator :=
  let temp := it
  (temp, ⟨it.p + 1⟩)

/-- `operator--()`: the iterator after `--p`, which is also what is returned
(address subtraction, stopping at 0). -/
def iterator.dec (it : iterator) : iterator := ⟨it.p - 1⟩

/-- `operator--(int)`: the returned copy `temp` and the iterator after `--p`. -/
def iterator.dec_post (it : iterator) : iterator × iterator :=
  let temp := it
  (temp, ⟨it.p - 1⟩)

/-! ## Copy assignment -/

/-- The heap copy assignment leaves when it reallocates. -/
def assign_heap (h : Heap T) (a b : vector) : Heap T :=
  match h.allocate b.numElements with
  | .error h1 => h1
  | .ok (newData, h1) =>
    ((forRange 0 a.numElements (fun i m => m.destroy (a.data + i))
      (forRange 0 b.numElements (fun i m => m.construct_from (newData + i) (b.data + i)) h1)
     ).deallocate a.data a.numCapacity)

/-- The heap copy assignment leaves when the capacity suffices. -/
def assign_heap_in_place (h : Heap T) (a b : vector) : Heap T :=
  forRange b.numElements a.numElements (fun i m => m.destroy (a.data + i))
    (forRange 0 b.numElements
      (fun i m => if i < a.numElements then m.assign_from (a.data + i) (b.data + i)
                  else m.construct_from (a.data + i) (b.data + i)) h)

/-- A heap with two blocks: address 1 holds 5, addresses 3 and 4 hold 7, 8. -/
def demo_heap : Heap Nat :=
  { mem := fun a => if a = 1 then some 5 else if a = 3 then some 7
                    else if a = 4 then some 8 else none
    brk := 5
    avail := 9 }

/-- The containers of `demo_heap`: object 0 holds 5, every other object is the
container holding 7, 8. -/
def demo_objs : Nat → vector := fun k => if k = 0 then ⟨1, 1, 1⟩ else ⟨3, 2, 2⟩

/-! # Theorems -/

/-! ## Memory lemmas -/

@[simp] theorem Heap.store_mem (h : Heap T) (p : Nat) (c : Option T) (a : Nat) :
    (h.store p c).mem a = if a = p then c else h.mem a := rfl

@[simp] theorem Heap.construct_ref_val (h : Heap T) (p : Nat) (t : T) :
    h.construct_ref p (.val t) = h.construct p t := rfl

@[simp] theorem Heap.store_brk (h : Heap T) (p : Nat) (c : Option T) :
    (h.store p c).brk = h.brk := rfl

@[simp] theorem Heap.store_avail (h : Heap T) (p : Nat) (c : Option T) :
    (h.store p c).avail = h.avail := rfl

@[simp] theorem Heap.deallocate_mem (h : Heap T) (p n : Nat) :
    (h.deallocate p n).mem = h.mem := by
  unfold Heap.deallocate; split <;> rfl

@[simp] theorem Heap.deallocate_brk (h : Heap T) (p n : Nat) :
    (h.deallocate p n).brk = h.brk := by
  unfold Heap.deallocate; split <;> rfl

theorem Heap.deallocate_avail (h : Heap T) (p n : Nat) :
    (h.deallocate p n).avail = if p = 0 then h.avail else h.avail + n := by
  unfold Heap.deallocate; split <;> rfl

/-- A loop whose body keeps `brk` keeps `brk`. -/
theorem forLoop_brk (body : Nat → Heap T → Heap T) (hb : ∀ i m, (body i m).brk = m.brk)
    (n lo : Nat) (h : Heap T) : (forLoop body lo n h).brk = h.brk := by
  induction n generalizing lo h with
  | zero => rfl
  | succ n ih => simp only [forLoop]; rw [ih, hb]

/-- A loop whose body keeps `avail` keeps `avail`. -/
theorem forLoop_avail (body : Nat → Heap T → Heap T) (hb : ∀ i m, (body i m).avail = m.avail)
    (n lo : Nat) (h : Heap T) : (forLoop body lo n h).avail = h.avail := by
  induction n generalizing lo h with
  | zero => rfl
  | succ n ih => simp only [forLoop]; rw [ih, hb]

/-- Memory after the loop destroying `p[lo .. lo + n)`. -/
theorem destroy_loop_mem (p n lo : Nat) (h : Heap T) (a : Nat) :
    (forLoop (fun i m => m.destroy (p + i)) lo n h).mem a
      = if p + lo ≤ a ∧ a < p + lo + n then none else h.mem a := by
  induction n generalizing lo h with
  | zero => simp only [forLoop]; rw [if_neg (by omega)]
  | succ n ih =>
    simp only [forLoop]; rw [ih]
    simp only [Heap.destroy, Heap.store_mem]
    split_ifs <;> first | rfl | omega

/-- Memory after the loop constructing copies of `t` in `p[lo .. lo + n)`. -/
theorem construct_loop_mem (p : Nat) (t : T) (n lo : Nat) (h : Heap T) (a : Nat) :
    (forLoop (fun i m => m.construct (p + i) t) lo n h).mem a
      = if p + lo ≤ a ∧ a < p + lo + n then some t else h.mem a := by
  induction n generalizing lo h with
  | zero => simp only [forLoop]; rw [if_neg (by omega)]
  | succ n ih =>
    simp only [forLoop]; rw [ih]
    simp only [Heap.construct, Heap.store_mem]
    split_ifs <;> first | rfl | omega

/-- Memory after the loop constructing `d[i]` from `s[i]` for `i` in
`[lo, lo + n)`, the source range lying below the destination range. -/
theorem copy_loop_mem (d s n lo : Nat) (h : Heap T) (hsep : s + lo + n ≤ d + lo) (a : Nat) :
    (forLoop (fun i m => m.construct_from (d + i) (s + i)) lo n h).mem a
      = if d + lo ≤ a ∧ a < d + lo + n then h.mem (s + (a - d)) else h.mem a := by
  induction n generalizing lo h with
  | zero => simp only [forLoop]; rw [if_neg (by omega)]
  | succ n ih =>
    simp only [forLoop]; rw [ih _ _ (by omega)]
    simp only [Heap.construct_from, Heap.store_mem]
    split_ifs <;> first | rfl | omega | (congr 1; omega)

/-- Memory after the loop over an initializer list. -/
theorem construct_list_mem (d : Nat) (l : List T) (i : Nat) (h : Heap T) (a : Nat) :
    (construct_list d l i h).mem a
      = if d + i ≤ a ∧ a < d + i + l.length then l[a - (d + i)]? else h.mem a := by
  induction l generalizing i h with
  | nil => simp only [construct_list, List.length_nil]; rw [if_neg (by omega)]
  | cons x xs ih =>
    simp only [construct_list, List.length_cons]; rw [ih]
    simp only [Heap.construct, Heap.store_mem]
    split_ifs with h1 h2 h3 h4
    · have : a - (d + i) = (a - (d + (i + 1))) + 1 := by omega
      rw [this, List.getElem?_cons_succ]
    · omega
    · subst h3; simp
    · omega
    · omega
    · rfl

theorem construct_list_brk (d : Nat) (l : List T) (i : Nat) (h : Heap T) :
    (construct_list d l i h).brk = h.brk := by
  induction l generalizing i h with
  | nil => rfl
  | cons x xs ih => simp only [construct_list]; rw [ih]; rfl

theorem construct_list_avail (d : Nat) (l : List T) (i : Nat) (h : Heap T) :
    (construct_list d l i h).avail = h.avail := by
  induction l generalizing i h with
  | nil => rfl
  | cons x xs ih => simp only [construct_list]; rw [ih]; rfl

/-! ## reserve -/

theorem reserve_grow (v : vector) (h : Heap T) (k : Nat)
    (hk : v.numCapacity < k) (hmem : k ≤ h.avail) :
    v.reserve h k = .ok (reserve_heap v h k, { v with data := h.brk + 1, numCapacity := k }) := by
  simp [vector.reserve, reserve_heap, Heap.allocate, hmem, Nat.not_le.mpr hk]

theorem reserve_fail (v : vector) (h : Heap T) (k : Nat)
    (hk : v.numCapacity < k) (hmem : h.avail < k) :
    v.reserve h k = .error (h, v) := by
  simp [vector.reserve, Heap.allocate, Nat.not_le.mpr hmem, Nat.not_le.mpr hk]

theorem reserve_noop (v : vector) (h : Heap T) (k : Nat) (hk : k ≤ v.numCapacity) :
    v.reserve h k = .ok (h, v) := by
  simp [vector.reserve, hk]

theorem reserve_heap_brk (v : vector) (h : Heap T) (k : Nat) (hmem : k ≤ h.avail) :
    (reserve_heap v h k).brk = h.brk + 1 + k := by
  simp only [reserve_heap, Heap.allocate, hmem, if_true, forRange, Heap.deallocate_brk]
  rw [forLoop_brk, forLoop_brk] <;> (intros; rfl)

theorem reserve_heap_avail (v : vector) (h : Heap T) (k : Nat) (hmem : k ≤ h.avail) :
    (reserve_heap v h k).avail
      = if v.data = 0 then h.avail - k else h.avail - k + v.numCapacity := by
  simp only [reserve_heap, Heap.allocate, hmem, if_true, forRange, Heap.deallocate_avail]
  rw [forLoop_avail, forLoop_avail] <;> (intros; rfl)

/-- Memory after a reallocating `reserve(k)`, for a container whose live
elements lie at or below `brk`. -/
theorem reserve_heap_mem (v : vector) (h : Heap T) (k : Nat) (hmem : k ≤ h.avail)
    (hown : v.data + v.numElements ≤ h.brk + 1) (a : Nat) :
    (reserve_heap v h k).mem a
      = if v.data ≤ a ∧ a < v.data + v.numElements then none
        else if h.brk + 1 ≤ a ∧ a < h.brk + 1 + v.numElements then
          h.mem (v.data + (a - (h.brk + 1)))
        else if h.brk + 1 ≤ a ∧ a < h.brk + 1 + k then none
        else h.mem a := by
  simp only [reserve_heap, Heap.allocate, hmem, if_true, forRange, Heap.deallocate_mem,
    Nat.sub_zero]
  rw [destroy_loop_mem, copy_loop_mem _ _ _ _ _ (by omega)]
  simp only [Nat.add_zero]
  split_ifs <;> first | rfl | omega

/-! ## push_back and pop_back against a list -/

theorem wrap_of_lt {n : Nat} (hn : n < 2 ^ 64) : wrap n = n := by
  unfold wrap SIZE_RANGE; exact Nat.mod_eq_of_lt hn

theorem size_sub_one {n : Nat} (h0 : 0 < n) (hn : n < 2 ^ 64) : size_sub n 1 = n - 1 := by
  unfold size_sub wrap SIZE_RANGE
  have : 2 ^ 64 + n - 1 = (n - 1) + 2 ^ 64 := by omega
  rw [this, Nat.add_mod_right]; exact Nat.mod_eq_of_lt (by omega)

theorem push_back_represents (h : Heap T) (v : vector) (l : List T) (t : T)
    (hr : Represents h v l) (hlen : l.length < 2 ^ 63)
    (hmem : v.numElements = v.numCapacity → 2 * v.numCapacity + 1 ≤ h.avail) :
    ∃ h' v', v.push_back h (.val t) = .ok (h', v') ∧ Represents h' v' (l ++ [t]) ∧
      v'.numCapacity = next_capacity v ∧
      h'.avail + v'.numCapacity = h.avail + v.numCapacity := by
  obtain ⟨hsz, hle, hnull, hown, hel⟩ := hr
  by_cases h0 : v.numElements = 0
  · by_cases hc : v.numCapacity = 0
    · -- reserve(1) reallocates
      have hd : v.data = 0 := hnull.mpr hc
      have hl : l = [] := List.length_eq_zero.mp (by omega)
      have hav : 1 ≤ h.avail := by have := hmem (by omega); omega
      refine ⟨(reserve_heap v h 1).construct (h.brk + 1 + 0) t,
        ⟨h.brk + 1, 1, 1⟩, ?_, ⟨?_, ?_, ?_, ?_, ?_⟩, ?_, ?_⟩
      · simp [vector.push_back, vector.size, vector.capacity, h0,
          reserve_grow v h 1 (by omega) hav, wrap_of_lt]
      · simp [hl]
      · simp
      · simp
      · simp [Heap.construct, reserve_heap_brk v h 1 hav]
      · intro i hi
        subst hl
        have hi0 : i = 0 := by simpa using hi
        subst hi0
        simp [Heap.construct]
      · simp [next_capacity, h0, hc]
      · simp [Heap.construct, reserve_heap_avail v h 1 hav, hd, hc]; omega
    · -- capacity is there already
      have hl : l = [] := List.length_eq_zero.mp (by omega)
      refine ⟨h.construct (v.data + v.numElements) t,
        { v with numElements := 1 }, ?_, ⟨?_, ?_, ?_, ?_, ?_⟩, ?_, ?_⟩
      · have hne : ¬ (0 = v.numCapacity) := fun e => hc e.symm
        simp [vector.push_back, vector.size, vector.capacity, h0,
          reserve_noop v h 1 (by omega), hne, wrap_of_lt]
      · simp [hl]
      · show 1 ≤ v.numCapacity; omega
      · exact hnull
      · exact hown
      · intro i hi
        subst hl
        have hi0 : i = 0 := by simpa using hi
        subst hi0
        simp [Heap.construct, h0]
      · have : ¬ (0 = v.numCapacity) := fun e => hc e.symm
        simp [next_capacity, h0, this]
      · rfl
  · by_cases hc : v.numElements = v.numCapacity
    · -- the capacity doubles
      have hav : 2 * v.numCapacity ≤ h.avail := by have := hmem hc; omega
      have hcap : v.numCapacity < 2 ^ 63 := by omega
      have hw : wrap (v.numCapacity * 2) = 2 * v.numCapacity := by
        rw [wrap_of_lt (by omega)]; omega
      have hd : v.data ≠ 0 := fun e => by have := hnull.mp e; omega
      have hc0 : ¬ v.numCapacity = 0 := by omega
      refine ⟨(reserve_heap v h (2 * v.numCapacity)).construct (h.brk + 1 + v.numElements) t,
        ⟨h.brk + 1, 2 * v.numCapacity, v.numElements + 1⟩, ?_, ⟨?_, ?_, ?_, ?_, ?_⟩, ?_, ?_⟩
      · simp [vector.push_back, vector.size, vector.capacity, hc0, hc, hw,
          reserve_grow v h (2 * v.numCapacity) (by omega) hav]
        exact wrap_of_lt (by omega)
      · simp [hsz]
      · show v.numElements + 1 ≤ 2 * v.numCapacity; omega
      · simp; omega
      · simp [Heap.construct, reserve_heap_brk v h _ hav]
      · intro i hi
        simp only [Heap.construct, Heap.store_mem]
        rw [reserve_heap_mem v h _ hav (by omega)]
        rw [List.length_append, List.length_singleton] at hi
        by_cases hil : i = l.length
        · subst hil
          rw [if_pos (by omega)]; simp
        · have hi2 : i < l.length := by omega
          rw [if_neg (by omega), if_neg (by omega), if_pos (by omega)]
          rw [List.getElem?_append_left hi2, ← hel i hi2]
          congr 1; omega
      · simp [next_capacity, hc, hc0]
      · simp [Heap.construct, reserve_heap_avail v h _ hav, hd]; omega
    · -- room is left
      refine ⟨h.construct (v.data + v.numElements) t,
        { v with numElements := v.numElements + 1 }, ?_, ⟨?_, ?_, ?_, ?_, ?_⟩, ?_, ?_⟩
      · simp [vector.push_back, vector.size, vector.capacity, h0, hc]
        exact wrap_of_lt (by omega)
      · simp [hsz]
      · show v.numElements + 1 ≤ v.numCapacity; omega
      · exact hnull
      · exact hown
      · intro i hi
        simp only [Heap.construct, Heap.store_mem]
        rw [List.length_append, List.length_singleton] at hi
        by_cases hil : i = l.length
        · subst hil
          rw [if_pos (by omega)]; simp
        · have hi2 : i < l.length := by omega
          rw [if_neg (by omega), List.getElem?_append_left hi2]
          exact hel i hi2
      · simp [next_capacity, hc]
      · rfl

theorem pop_back_represents (h : Heap T) (v : vector) (l : List T)
    (hr : Represents h v l) (hpos : 0 < l.length) (hlen : l.length < 2 ^ 64) :
    ∃ h', v.pop_back h = (h', { v with numElements := v.numElements - 1 }) ∧
      Represents h' { v with numElements := v.numElements - 1 } l.dropLast ∧
      h'.avail = h.avail := by
  obtain ⟨hsz, hle, hnull, hown, hel⟩ := hr
  have hd : v.data ≠ 0 := fun e => by have := hnull.mp e; omega
  have hs : size_sub v.numElements 1 = v.numElements - 1 := size_sub_one (by omega) (by omega)
  refine ⟨h.destroy (v.data + (v.numElements - 1)), ?_, ⟨?_, ?_, ?_, ?_, ?_⟩, ?_⟩
  · simp [vector.pop_back, hd, hs]
  · simp [hsz]
  · show v.numElements - 1 ≤ v.numCapacity; omega
  · exact hnull
  · exact hown
  · intro i hi
    rw [List.length_dropLast] at hi
    simp only [Heap.destroy, Heap.store_mem]
    rw [if_neg (by omega), hel i (by omega), List.dropLast_eq_take,
      List.getElem?_take_of_lt (by omega)]
  · rfl

/-! ## C1: sequences of push_back and pop_back -/

theorem replay_length (ops : List (Op T)) (l : List T) (hadm : admissible ops l.length = true) :
    (replay ops l).length + count_pop ops = l.length + count_push ops := by
  induction ops generalizing l with
  | nil => rfl
  | cons op ops ih =>
    cases op with
    | push_back t =>
      have := ih (l ++ [t]) (by simpa [admissible] using hadm)
      simp only [replay, count_pop, count_push]
      simp only [List.length_append, List.length_singleton] at this
      omega
    | pop_back =>
      simp only [admissible, Bool.and_eq_true, decide_eq_true_eq] at hadm
      have := ih l.dropLast (by simpa using hadm.2)
      simp only [replay, count_pop, count_push]
      simp only [List.length_dropLast] at this
      omega

theorem run_represents (ops : List (Op T)) (h : Heap T) (v : vector) (l : List T)
    (hr : Represents h v l) (hadm : admissible ops l.length = true)
    (hlen : l.length + ops.length < 2 ^ 63)
    (hmem : 3 * (l.length + ops.length) ≤ h.avail + v.numCapacity) :
    ∃ h' v', run (ops.map Op.by_value) (h, v) = .ok (h', v') ∧
      Represents h' v' (replay ops l) := by
  induction ops generalizing h v l with
  | nil => exact ⟨h, v, rfl, hr⟩
  | cons op ops ih =>
    simp only [List.length_cons] at hlen hmem
    cases op with
    | push_back t =>
      obtain ⟨h1, v1, hp, hr1, _, hav⟩ :=
        push_back_represents h v l t hr (by omega) (by have := hr.size_eq; omega)
      obtain ⟨h2, v2, hrun, hr2⟩ := ih h1 v1 (l ++ [t]) hr1
        (by simpa [admissible] using hadm)
        (by simp only [List.length_append, List.length_singleton]; omega)
        (by simp only [List.length_append, List.length_singleton]; omega)
      exact ⟨h2, v2, by simp only [List.map_cons, Op.by_value, run, Op.apply, hp, hrun], hr2⟩
    | pop_back =>
      simp only [admissible, Bool.and_eq_true, decide_eq_true_eq] at hadm
      obtain ⟨h1, hp, hr1, hav⟩ := pop_back_represents h v l hr hadm.1 (by omega)
      obtain ⟨h2, v2, hrun, hr2⟩ := ih h1 _ l.dropLast hr1
        (by simpa using hadm.2)
        (by simp only [List.length_dropLast]; omega)
        (by simp only [List.length_dropLast]; rw [hav]; show _ ≤ h.avail + v.numCapacity; omega)
      exact ⟨h2, v2, by simp only [List.map_cons, Op.by_value, run, Op.apply, hp, hrun], hr2⟩

theorem represents_ctor (h : Heap T) : Represents h vector.ctor [] :=
  ⟨rfl, Nat.le_refl _, by simp [vector.ctor], by simp [vector.ctor], by simp⟩

/-- The sequences whose `push_back` arguments are objects of the caller, not
elements of the container: for every such sequence performed on the empty
container in which no `pop_back` meets size 0 (the sequence being shorter than
`2 ^ 63` and the allocator having three slots per call to hand out), every
call returns normally, the final `size()` is the number of `push_back` calls
minus the number of `pop_back` calls, and `operator[]` reads back, index by
index, the list obtained by replaying the calls on the empty list. -/
theorem push_pop_sequence (h : Heap T) (ops : List (Op T))
    (hadm : admissible ops 0 = true) (hlen : ops.length < 2 ^ 63)
    (hmem : 3 * ops.length ≤ h.avail) :
    ∃ h' v', run (ops.map Op.by_value) (h, vector.ctor) = .ok (h', v') ∧
      v'.size = count_push ops - count_pop ops ∧
      v'.size = (replay ops []).length ∧
      ∀ i, i < v'.size → v'.index h' i = (replay ops [])[i]? := by
  obtain ⟨h1, v1, hrun, hr⟩ := run_represents ops h vector.ctor [] (represents_ctor h) hadm
    (by simpa using hlen) (by simp only [List.length_nil, vector.ctor]; omega)
  have hl := replay_length ops [] hadm
  simp only [List.length_nil] at hl
  refine ⟨h1, v1, hrun, ?_, hr.size_eq, ?_⟩
  · show v1.numElements = _; rw [hr.size_eq]; omega
  · intro i hi
    exact hr.elems i (by rw [← hr.size_eq]; exact hi)

/-- An instance: push 1, push 2, pop, push 3 on a heap of 12 slots. -/
theorem push_pop_sequence_example :
    ∃ h' v', run ([Op.push_back 1, Op.push_back 2, Op.pop_back, Op.push_back 3].map Op.by_value)
        ((Heap.init 12 : Heap Nat), vector.ctor) = .ok (h', v') ∧
      v'.size = 2 ∧ v'.size = [1, 3].length ∧
      ∀ i, i < v'.size → v'.index h' i = [1, 3][i]? :=
  push_pop_sequence (Heap.init 12) [Op.push_back 1, Op.push_back 2, Op.pop_back, Op.push_back 3]
    (by decide) (by decide) (by decide)

/-- C1, at the failing input: the empty container receives `push_back(7)` and
`push_back(8)` and is then full, with capacity 2 and `v[0] == 7`.  The call
`v.push_back(v[0])` has to grow: `reserve` moves the elements to a new block
and destroys and frees the old one, and only then is the argument read, so the
new element is constructed from a slot that holds no object any more: the
container has size 3 and its element 2 is not the 7 a replay on a list
appends.  On a container with room left (capacity 4) the same call stores 7. -/
theorem push_back_own_element_reads_freed_slot :
    ∃ h1 v1 h2 v2 h3 v3,
      run [Op.push_back (Ref.val 7), Op.push_back (Ref.val 8)]
        ((Heap.init 12 : Heap Nat), vector.ctor) = .ok (h1, v1) ∧
      v1.size = 2 ∧ v1.capacity = 2 ∧ v1.index h1 0 = some 7 ∧ v1.index h1 1 = some 8 ∧
      v1.push_back h1 (Ref.slot (v1.data + 0)) = .ok (h2, v2) ∧
      v2.size = 3 ∧ v2.index h2 0 = some 7 ∧ v2.index h2 1 = some 8 ∧
      v2.index h2 2 = none ∧ replay [Op.push_back 7] [7, 8] = [7, 8, 7] ∧
      (⟨1, 4, 2⟩ : vector).push_back (Heap.of_list [7, 8] 2 9 : Heap Nat) (Ref.slot (1 + 0))
        = .ok (h3, v3) ∧
      v3.size = 3 ∧ v3.index h3 2 = some 7 :=
  ⟨_, _, _, _, _, _, rfl, rfl, rfl, rfl, rfl, rfl, rfl, rfl, rfl, rfl, rfl, rfl, rfl, rfl⟩

/-! ## The ways reserve and push_back can go -/

theorem reserve_cases (v : vector) (h : Heap T) (k : Nat) :
    (k ≤ v.numCapacity ∧ v.reserve h k = .ok (h, v)) ∨
    (v.numCapacity < k ∧ h.avail < k ∧ v.reserve h k = .error (h, v)) ∨
    (v.numCapacity < k ∧ k ≤ h.avail ∧
      v.reserve h k = .ok (reserve_heap v h k, { v with data := h.brk + 1, numCapacity := k })) := by
  by_cases hk : k ≤ v.numCapacity
  · exact Or.inl ⟨hk, reserve_noop v h k hk⟩
  · by_cases hm : k ≤ h.avail
    · exact Or.inr (Or.inr ⟨by omega, hm, reserve_grow v h k (by omega) hm⟩)
    · exact Or.inr (Or.inl ⟨by omega, by omega, reserve_fail v h k (by omega) (by omega)⟩)

/-- The three ways `push_back(t)` can go: the allocation of the capacity `k` it
asks for fails and it throws before touching anything, it reallocates to the
capacity `k` and constructs the element in the new block, or it constructs the
element in the block it has. -/
theorem push_back_cases (v : vector) (h : Heap T) (t : Ref T) :
    (∃ k, v.numCapacity < k ∧ h.avail < k ∧
      ((k = 1 ∧ v.numElements = 0) ∨
        (k = wrap (v.numCapacity * 2) ∧ v.numElements = v.numCapacity ∧ v.numElements ≠ 0)) ∧
      v.push_back h t = .error (h, v)) ∨
    (∃ k, v.numCapacity < k ∧ k ≤ h.avail ∧
      ((k = 1 ∧ v.numElements = 0) ∨
        (k = wrap (v.numCapacity * 2) ∧ v.numElements = v.numCapacity ∧ v.numElements ≠ 0)) ∧
      v.push_back h t = .ok ((reserve_heap v h k).construct_ref (h.brk + 1 + v.numElements) t,
        { data := h.brk + 1, numCapacity := k, numElements := wrap (v.numElements + 1) })) ∨
    (((v.numElements = 0 ∧ v.numCapacity ≠ 0) ∨ (v.numElements ≠ 0 ∧ v.numElements ≠ v.numCapacity) ∨
        (v.numElements ≠ 0 ∧ v.numElements = v.numCapacity ∧ wrap (v.numCapacity * 2) ≤ v.numCapacity)) ∧
      v.push_back h t = .ok (h.construct_ref (v.data + v.numElements) t,
        { v with numElements := wrap (v.numElements + 1) })) := by
  unfold vector.push_back vector.size vector.capacity
  by_cases h0 : v.numElements = 0
  · rw [if_pos h0]
    rcases reserve_cases v h 1 with ⟨hk, hr⟩ | ⟨hk, hm, hr⟩ | ⟨hk, hm, hr⟩
    · right; right
      have hne : ¬ (v.numElements = v.numCapacity) := by omega
      refine ⟨Or.inl ⟨h0, by omega⟩, ?_⟩
      rw [hr]; simp only [if_neg hne]
    · left
      exact ⟨1, hk, hm, Or.inl ⟨rfl, h0⟩, by rw [hr]⟩
    · right; left
      refine ⟨1, hk, hm, Or.inl ⟨rfl, h0⟩, ?_⟩
      rw [hr]
      have hne : ¬ (v.numElements = 1) := by omega
      simp only [if_neg hne]
  · rw [if_neg h0]
    by_cases hc : v.numElements = v.numCapacity
    · simp only [if_pos hc]
      rcases reserve_cases v h (wrap (v.numCapacity * 2)) with ⟨hk, hr⟩ | ⟨hk, hm, hr⟩ | ⟨hk, hm, hr⟩
      · right; right
        exact ⟨Or.inr (Or.inr ⟨h0, hc, hk⟩), by rw [hr]⟩
      · left
        exact ⟨_, hk, hm, Or.inr ⟨rfl, hc, h0⟩, by rw [hr]⟩
      · right; left
        exact ⟨_, hk, hm, Or.inr ⟨rfl, hc, h0⟩, by rw [hr]⟩
    · right; right
      exact ⟨Or.inr (Or.inl ⟨h0, hc⟩), by simp only [if_neg hc]⟩

/-- Sizes, capacity and allocator accounting of a `push_back` that does not
overflow and finds the memory it asks for, whatever its argument refers to. -/
theorem push_back_shape (h : Heap T) (v : vector) (t : Ref T)
    (hs : Shape h v) (hlen : v.numElements < 2 ^ 63)
    (hmem : v.numElements = v.numCapacity → 2 * v.numCapacity + 1 ≤ h.avail) :
    ∃ h' v', v.push_back h t = .ok (h', v') ∧ Shape h' v' ∧
      v'.numElements = v.numElements + 1 ∧
      v'.numCapacity = next_capacity v ∧
      h'.avail + v'.numCapacity = h.avail + v.numCapacity := by
  obtain ⟨hle, hnull, hown⟩ := hs
  have hw1 : wrap (v.numElements + 1) = v.numElements + 1 := wrap_of_lt (by omega)
  have hw2 : v.numElements = v.numCapacity → wrap (v.numCapacity * 2) = v.numCapacity * 2 :=
    fun e => wrap_of_lt (by omega)
  rcases push_back_cases v h t with ⟨k, hk, hm, hc, hr⟩ | ⟨k, hk, hm, hc, hr⟩ | ⟨hc, hr⟩
  · exfalso
    rcases hc with ⟨h1, h0⟩ | ⟨h1, h2, h3⟩
    · have := hmem (by omega); omega
    · have := hmem h2; have := hw2 h2; omega
  · refine ⟨_, _, hr, ⟨?_, ?_, ?_⟩, hw1, ?_, ?_⟩
    · show wrap (v.numElements + 1) ≤ k
      rcases hc with ⟨h1, h0⟩ | ⟨h1, h2, h3⟩
      · omega
      · have := hw2 h2; omega
    · show h.brk + 1 = 0 ↔ k = 0
      constructor <;> intro e <;> omega
    · show h.brk + 1 + k ≤ (Heap.construct_ref _ _ _).brk
      rw [Heap.construct_ref, Heap.store_brk, reserve_heap_brk v h k hm]
    · show k = next_capacity v
      unfold next_capacity
      rcases hc with ⟨h1, h0⟩ | ⟨h1, h2, h3⟩
      · have hc0 : v.numCapacity = 0 := by omega
        rw [if_pos (by omega), if_pos hc0]; exact h1
      · have := hw2 h2
        rw [if_pos h2, if_neg (by omega)]; omega
    · show (Heap.construct_ref _ _ _).avail + k = h.avail + v.numCapacity
      rw [Heap.construct_ref, Heap.store_avail, reserve_heap_avail v h k hm]
      by_cases hd : v.data = 0
      · have := hnull.mp hd
        rw [if_pos hd]; omega
      · rw [if_neg hd]; omega
  · have hnov : ¬ (v.numElements ≠ 0 ∧ v.numElements = v.numCapacity ∧
        wrap (v.numCapacity * 2) ≤ v.numCapacity) := by
      rintro ⟨h1, h2, h3⟩
      have := hw2 h2; omega
    refine ⟨_, _, hr, ⟨?_, hnull, hown⟩, hw1, ?_, rfl⟩
    · show wrap (v.numElements + 1) ≤ v.numCapacity
      rcases hc with ⟨h0, h1⟩ | ⟨h0, h1⟩ | hc3
      · omega
      · omega
      · exact absurd hc3 hnov
    · show v.numCapacity = next_capacity v
      unfold next_capacity
      rcases hc with ⟨h0, h1⟩ | ⟨h0, h1⟩ | hc3
      · rw [if_neg (by omega)]
      · rw [if_neg h1]
      · exact absurd hc3 hnov

/-! ## C2: the doubling rule -/

theorem tight_next (v : vector) (ht : Tight v.numElements v.numCapacity) :
    Tight (v.numElements + 1) (next_capacity v) := by
  unfold next_capacity
  rcases ht with ⟨h0, hc⟩ | ⟨k, hk, hle, hlt⟩
  · right
    refine ⟨0, ?_, ?_, ?_⟩ <;> simp [h0, hc]
  · right
    by_cases he : v.numElements = v.numCapacity
    · have hc0 : ¬ v.numCapacity = 0 := by omega
      rw [if_pos he, if_neg hc0]
      exact ⟨k + 1, by rw [hk, pow_succ]; omega, by omega, by omega⟩
    · rw [if_neg he]
      exact ⟨k, hk, by omega, by omega⟩

theorem tight_least {n c : Nat} (hn : 1 ≤ n) (ht : Tight n c) :
    (∃ k, c = 2 ^ k) ∧ n ≤ c ∧ ∀ j, n ≤ 2 ^ j → c ≤ 2 ^ j := by
  rcases ht with ⟨h0, _⟩ | ⟨k, hk, hle, hlt⟩
  · omega
  · refine ⟨⟨k, hk⟩, hle, ?_⟩
    intro j hj
    have h1 : 2 ^ k < 2 ^ (j + 1) := by rw [← hk, pow_succ]; omega
    have h2 : k < j + 1 := (Nat.pow_lt_pow_iff_right (by decide)).mp h1
    rw [hk]
    exact Nat.pow_le_pow_right (by decide) (by omega)

theorem shape_ctor (h : Heap T) : Shape h vector.ctor :=
  ⟨Nat.le_refl _, by simp [vector.ctor], by simp [vector.ctor]⟩

theorem run_push_backs (ts : List (Ref T)) (h : Heap T) (v : vector)
    (hs : Shape h v) (ht : Tight v.numElements v.numCapacity)
    (hlen : v.numElements + ts.length < 2 ^ 63)
    (hmem : 3 * (v.numElements + ts.length) ≤ h.avail + v.numCapacity) :
    ∃ h' v', run (ts.map Op.push_back) (h, v) = .ok (h', v') ∧ Shape h' v' ∧
      v'.numElements = v.numElements + ts.length ∧
      Tight v'.numElements v'.numCapacity := by
  induction ts generalizing h v with
  | nil => exact ⟨h, v, rfl, hs, rfl, ht⟩
  | cons t ts ih =>
    simp only [List.length_cons] at hlen hmem
    obtain ⟨h1, v1, hp, hs1, hn1, hcap, hav⟩ :=
      push_back_shape h v t hs (by omega) (by have := hs.size_le; omega)
    obtain ⟨h2, v2, hrun, hs2, hn2, ht2⟩ := ih h1 v1 hs1
      (by rw [hn1, hcap]; exact tight_next v ht) (by omega) (by omega)
    refine ⟨h2, v2, by simp only [List.map_cons, run, Op.apply, hp, hrun], hs2, ?_, ht2⟩
    rw [hn2, hn1, List.length_cons]; omega

/-- C2: after `n ≥ 1` successive `push_back` calls on the container made by the
empty constructor, whatever their arguments refer to (with `n < 2 ^ 63`, so
that no `size_t` operation overflows, and three slots per call for the
allocator to hand out) every call has returned normally, `size()` is `n`, and
`capacity()` is a power of two, is at least `n`, and is at most every power of
two that is at least `n`. -/
theorem capacity_doubling (h : Heap T) (ts : List (Ref T))
    (hn : 1 ≤ ts.length) (hlen : ts.length < 2 ^ 63) (hmem : 3 * ts.length ≤ h.avail) :
    ∃ h' v', run (ts.map Op.push_back) (h, vector.ctor) = .ok (h', v') ∧
      v'.size = ts.length ∧ v'.size ≤ v'.capacity ∧
      (∃ k, v'.capacity = 2 ^ k) ∧ ts.length ≤ v'.capacity ∧
      ∀ j, ts.length ≤ 2 ^ j → v'.capacity ≤ 2 ^ j := by
  obtain ⟨h1, v1, hrun, hs1, hn1, ht⟩ := run_push_backs ts h vector.ctor (shape_ctor h)
    (Or.inl ⟨rfl, rfl⟩) (by simpa [vector.ctor] using hlen)
    (by simp only [vector.ctor]; omega)
  have hs : v1.numElements = ts.length := by simpa [vector.ctor] using hn1
  rw [hs] at ht
  obtain ⟨hpow, hge, hleast⟩ := tight_least hn ht
  exact ⟨h1, v1, hrun, hs, hs1.size_le, hpow, hge, hleast⟩

/-- Witness of C2: after appending 1, 2, 3 the size is 3 and the capacity is 4. -/
theorem capacity_doubling_witness :
    ∃ h' v', run ([Ref.val 1, Ref.val 2, Ref.val 3].map Op.push_back)
        ((Heap.init 9 : Heap Nat), vector.ctor) = .ok (h', v') ∧
      v'.size = 3 ∧ v'.capacity = 4 := by
  obtain ⟨h1, v1, hrun, hs, _, ⟨k, hk⟩, hge, hleast⟩ :=
    capacity_doubling (Heap.init 9 : Heap Nat) [Ref.val 1, Ref.val 2, Ref.val 3]
      (by decide) (by decide) (by decide)
  refine ⟨h1, v1, hrun, hs, ?_⟩
  have h4 : v1.capacity ≤ 4 := hleast 2 (by decide)
  have h3 : 3 ≤ v1.capacity := hge
  rw [hk] at h4 h3 ⊢
  have hk2 : k < 3 := by
    by_contra hcon
    have : 2 ^ 3 ≤ 2 ^ k := Nat.pow_le_pow_right (by decide) (by omega)
    omega
  interval_cases k <;> simp_all

/-! ## C3: size ≤ capacity -/

theorem wrap_le (n : Nat) : wrap n ≤ n := Nat.mod_le _ _

theorem size_sub_one_lt {n : Nat} (h0 : 0 < n) : size_sub n 1 < n := by
  unfold size_sub wrap SIZE_RANGE
  by_cases hn : n < 2 ^ 64
  · have : 2 ^ 64 + n - 1 = (n - 1) + 2 ^ 64 := by omega
    rw [this, Nat.add_mod_right, Nat.mod_eq_of_lt (by omega)]; omega
  · have : (2 ^ 64 + n - 1) % 2 ^ 64 < 2 ^ 64 := Nat.mod_lt _ (by decide)
    omega

theorem size_le_capacity_reserve (v : vector) (h : Heap T) (k : Nat)
    (hv : v.size_le_capacity) : (final (v.reserve h k)).2.size_le_capacity := by
  unfold vector.size_le_capacity at *
  rcases reserve_cases v h k with ⟨_, hr⟩ | ⟨_, _, hr⟩ | ⟨hk, _, hr⟩ <;> rw [hr] <;>
    simp only [final] <;> omega

theorem size_le_capacity_push_back (v : vector) (h : Heap T) (t : Ref T)
    (hv : v.size_le_capacity) (hcap : v.numCapacity < 2 ^ 63) :
    (final (v.push_back h t)).2.size_le_capacity := by
  unfold vector.size_le_capacity at *
  have hw : wrap (v.numCapacity * 2) = v.numCapacity * 2 := wrap_of_lt (by omega)
  have hw1 := wrap_le (v.numElements + 1)
  rcases push_back_cases v h t with ⟨_, _, _, _, hr⟩ | ⟨k, hk, _, hc, hr⟩ | ⟨hc, hr⟩ <;>
    rw [hr] <;> simp only [final]
  · exact hv
  · rcases hc with ⟨h1, h0⟩ | ⟨h1, h2, h3⟩ <;> omega
  · rcases hc with ⟨h0, h1⟩ | ⟨h0, h1⟩ | ⟨h0, h1, h2⟩ <;> omega

theorem size_le_capacity_pop_back (v : vector) (h : Heap T)
    (hv : v.size_le_capacity) (hpos : 0 < v.size) : (v.pop_back h).2.size_le_capacity := by
  unfold vector.size_le_capacity vector.size at *
  unfold vector.pop_back
  have := size_sub_one_lt hpos
  split
  · show size_sub v.numElements 1 ≤ v.numCapacity; omega
  · exact hv

theorem size_le_capacity_resize_fill (v : vector) (h : Heap T) (n : Nat) (t : Ref T)
    (hv : v.size_le_capacity) : (final (v.resize_fill h n t)).2.size_le_capacity := by
  unfold vector.size_le_capacity at *
  unfold vector.resize_fill
  by_cases h1 : n = v.numElements
  · rw [if_pos h1]; exact hv
  · rw [if_neg h1]
    by_cases h2 : n < v.numElements
    · rw [if_pos h2]; show n ≤ v.numCapacity; omega
    · rw [if_neg h2]
      by_cases h3 : n > v.numCapacity
      · rw [if_pos h3]
        rcases reserve_cases v h n with ⟨_, hr⟩ | ⟨_, _, hr⟩ | ⟨hk, _, hr⟩ <;> rw [hr] <;>
          simp only [final] <;> omega
      · rw [if_neg h3]; show n ≤ v.numCapacity; omega

theorem size_le_capacity_resize [Inhabited T] (v : vector) (h : Heap T) (n : Nat)
    (hv : v.size_le_capacity) : (final (v.resize h n)).2.size_le_capacity := by
  unfold vector.size_le_capacity at *
  unfold vector.resize
  by_cases h1 : n = v.numElements
  · rw [if_pos h1]; exact hv
  · rw [if_neg h1]
    by_cases h2 : n < v.numElements
    · rw [if_pos h2]; show n ≤ v.numCapacity; omega
    · rw [if_neg h2]
      by_cases h3 : n > v.numCapacity
      · rw [if_pos h3]
        rcases reserve_cases v h n with ⟨_, hr⟩ | ⟨_, _, hr⟩ | ⟨hk, _, hr⟩ <;> rw [hr] <;>
          simp only [final] <;> omega
      · rw [if_neg h3]; show n ≤ v.numCapacity; omega

theorem size_le_capacity_shrink_to_fit (v : vector) (h : Heap T)
    (hv : v.size_le_capacity) : (final (v.shrink_to_fit h)).2.size_le_capacity := by
  unfold vector.size_le_capacity at *
  unfold vector.shrink_to_fit Heap.allocate
  split_ifs <;> simp only [final] <;> omega

theorem size_le_capacity_ctor_copy (h : Heap T) (rhs : vector) :
    built vector.size_le_capacity (vector.ctor_copy h rhs) := by
  unfold vector.ctor_copy Heap.allocate
  split_ifs <;> simp [built, vector.size_le_capacity]

theorem size_le_capacity_swap (o : Nat → vector) (this rhs : Nat)
    (h1 : (o this).size_le_capacity) (h2 : (o rhs).size_le_capacity) :
    (vector.swap o this rhs this).size_le_capacity ∧
      (vector.swap o this rhs rhs).size_le_capacity := by
  unfold vector.size_le_capacity at *
  by_cases he : this = rhs
  · subst he; simp [vector.swap, h1]
  · have he2 : rhs ≠ this := fun e => he e.symm
    simp [vector.swap, Function.update, he, he2, h1, h2]

theorem size_le_capacity_assign_copy (h : Heap T) (o : Nat → vector) (this rhs : Nat)
    (h1 : (o this).size_le_capacity) (h2 : (o rhs).size_le_capacity) :
    ((final (vector.assign_copy h o this rhs)).2 this).size_le_capacity ∧
      ((final (vector.assign_copy h o this rhs)).2 rhs).size_le_capacity := by
  unfold vector.size_le_capacity at *
  unfold vector.assign_copy Heap.allocate
  by_cases he : this = rhs
  · subst he; simp [final, h1]
  · have he2 : rhs ≠ this := fun e => he e.symm
    simp only [ne_eq, he, not_false_eq_true, if_true]
    split_ifs <;> simp [final, Function.update, he2, h1, h2]
    all_goals omega

theorem size_le_capacity_assign_move (h : Heap T) (o : Nat → vector) (this rhs : Nat)
    (h1 : (o this).size_le_capacity) (h2 : (o rhs).size_le_capacity) :
    ((vector.assign_move h o this rhs).2 this).size_le_capacity ∧
      ((vector.assign_move h o this rhs).2 rhs).size_le_capacity := by
  unfold vector.size_le_capacity at *
  unfold vector.assign_move
  by_cases he : this = rhs
  · subst he; simp [h1]
  · have he2 : rhs ≠ this := fun e => he e.symm
    simp [Function.update, he, he2, h1, h2]

/-- C3: `size ≤ capacity` holds of the container built by each constructor
(empty, `n` default elements, `n` copies, initializer list, copy; move, for the
new container and for its source, when the source satisfied it), and each of
`push_back` (whatever its argument refers to; with capacity below `2 ^ 63`, so
that `capacity * 2` does not overflow `size_t`), `pop_back` (with size above 0), `clear`, `reserve`, both
`resize`, `shrink_to_fit`, `swap`, copy assignment and move assignment leaves
it true of every container involved, whether the call returns or throws. -/
theorem size_le_capacity_invariant [Inhabited T] :
    vector.ctor.size_le_capacity ∧
    (∀ (h : Heap T) (n : Nat), built vector.size_le_capacity (vector.ctor_default h n)) ∧
    (∀ (h : Heap T) (n : Nat) (t : T), built vector.size_le_capacity (vector.ctor_fill h n t)) ∧
    (∀ (h : Heap T) (l : List T) (g : Nat),
      built vector.size_le_capacity (vector.ctor_list h l g)) ∧
    (∀ (h : Heap T) (rhs : vector), built vector.size_le_capacity (vector.ctor_copy h rhs)) ∧
    (∀ rhs : vector, rhs.size_le_capacity →
      (vector.ctor_move rhs).1.size_le_capacity ∧ (vector.ctor_move rhs).2.size_le_capacity) ∧
    (∀ (v : vector) (h : Heap T) (t : Ref T), v.size_le_capacity → v.numCapacity < 2 ^ 63 →
      (final (v.push_back h t)).2.size_le_capacity) ∧
    (∀ (v : vector) (h : Heap T), v.size_le_capacity → 0 < v.size →
      (v.pop_back h).2.size_le_capacity) ∧
    (∀ (v : vector) (h : Heap T), v.size_le_capacity → (v.clear h).2.size_le_capacity) ∧
    (∀ (v : vector) (h : Heap T) (k : Nat), v.size_le_capacity →
      (final (v.reserve h k)).2.size_le_capacity) ∧
    (∀ (v : vector) (h : Heap T) (n : Nat), v.size_le_capacity →
      (final (v.resize h n)).2.size_le_capacity) ∧
    (∀ (v : vector) (h : Heap T) (n : Nat) (t : Ref T), v.size_le_capacity →
      (final (v.resize_fill h n t)).2.size_le_capacity) ∧
    (∀ (v : vector) (h : Heap T), v.size_le_capacity →
      (final (v.shrink_to_fit h)).2.size_le_capacity) ∧
    (∀ (o : Nat → vector) (this rhs : Nat),
      (o this).size_le_capacity → (o rhs).size_le_capacity →
      (vector.swap o this rhs this).size_le_capacity ∧
        (vector.swap o this rhs rhs).size_le_capacity) ∧
    (∀ (h : Heap T) (o : Nat → vector) (this rhs : Nat),
      (o this).size_le_capacity → (o rhs).size_le_capacity →
      ((final (vector.assign_copy h o this rhs)).2 this).size_le_capacity ∧
        ((final (vector.assign_copy h o this rhs)).2 rhs).size_le_capacity) ∧
    (∀ (h : Heap T) (o : Nat → vector) (this rhs : Nat),
      (o this).size_le_capacity → (o rhs).size_le_capacity →
      ((vector.assign_move h o this rhs).2 this).size_le_capacity ∧
        ((vector.assign_move h o this rhs).2 rhs).size_le_capacity) := by
  refine ⟨Nat.le_refl _, ?_, ?_, ?_, size_le_capacity_ctor_copy, ?_,
    size_le_capacity_push_back, size_le_capacity_pop_back, ?_, size_le_capacity_reserve,
    size_le_capacity_resize, size_le_capacity_resize_fill, size_le_capacity_shrink_to_fit,
    size_le_capacity_swap, size_le_capacity_assign_copy, size_le_capacity_assign_move⟩
  · intro h n
    unfold vector.ctor_default Heap.allocate
    split_ifs <;> simp [built, vector.size_le_capacity]
  · intro h n t
    unfold vector.ctor_fill Heap.allocate
    split_ifs <;> simp [built, vector.size_le_capacity]
  · intro h l g
    unfold vector.ctor_list Heap.allocate
    simp only []
    split_ifs <;> simp [built, vector.size_le_capacity]
  · intro rhs hr
    exact ⟨hr, Nat.le_refl _⟩
  · intro v h _
    exact Nat.zero_le _

/-- Witness of C3: the container made by `vector(2, 7)` on a heap of 8 slots,
then `push_back(5)` and `pop_back()` on a full container of capacity 2. -/
theorem size_le_capacity_invariant_witness :
    built vector.size_le_capacity (vector.ctor_fill (Heap.init 8 : Heap Nat) 2 7) ∧
    (vector.ctor_fill (Heap.init 8 : Heap Nat) 2 7).isOk = true ∧
    (final ((⟨1, 2, 2⟩ : vector).push_back (Heap.init 8 : Heap Nat)
      (Ref.val 5))).2.size_le_capacity ∧
    ((⟨1, 2, 2⟩ : vector).pop_back (Heap.init 8 : Heap Nat)).2.size_le_capacity :=
  ⟨(@size_le_capacity_invariant Nat _).2.2.1 (Heap.init 8) 2 7, rfl,
   (@size_le_capacity_invariant Nat _).2.2.2.2.2.2.1 ⟨1, 2, 2⟩ (Heap.init 8) (Ref.val 5)
     (by decide) (by decide),
   (@size_le_capacity_invariant Nat _).2.2.2.2.2.2.2.1 ⟨1, 2, 2⟩ (Heap.init 8)
     (by decide) (by decide)⟩

/-! ## C4: storage is absent exactly when the capacity is 0 -/

theorem null_iff_zero_reserve (v : vector) (h : Heap T) (k : Nat)
    (hv : v.null_iff_zero) : (final (v.reserve h k)).2.null_iff_zero := by
  unfold vector.null_iff_zero at *
  rcases reserve_cases v h k with ⟨_, hr⟩ | ⟨_, _, hr⟩ | ⟨hk, _, hr⟩ <;> rw [hr] <;>
    simp only [final]
  · exact hv
  · exact hv
  · constructor <;> intro e <;> omega

theorem null_iff_zero_push_back (v : vector) (h : Heap T) (t : Ref T)
    (hv : v.null_iff_zero) : (final (v.push_back h t)).2.null_iff_zero := by
  unfold vector.null_iff_zero at *
  rcases push_back_cases v h t with ⟨_, _, _, _, hr⟩ | ⟨k, hk, _, hc, hr⟩ | ⟨hc, hr⟩ <;>
    rw [hr] <;> simp only [final]
  · exact hv
  · constructor <;> intro e <;> omega
  · exact hv

theorem null_iff_zero_pop_back (v : vector) (h : Heap T)
    (hv : v.null_iff_zero) : (v.pop_back h).2.null_iff_zero := by
  unfold vector.pop_back; split <;> exact hv

theorem null_iff_zero_clear (v : vector) (h : Heap T)
    (hv : v.null_iff_zero) : (v.clear h).2.null_iff_zero := hv

theorem null_iff_zero_resize_fill (v : vector) (h : Heap T) (n : Nat) (t : Ref T)
    (hv : v.null_iff_zero) : (final (v.resize_fill h n t)).2.null_iff_zero := by
  unfold vector.resize_fill
  by_cases h1 : n = v.numElements
  · rw [if_pos h1]; exact hv
  · rw [if_neg h1]
    by_cases h2 : n < v.numElements
    · rw [if_pos h2]; exact hv
    · rw [if_neg h2]
      by_cases h3 : n > v.numCapacity
      · rw [if_pos h3]
        have := null_iff_zero_reserve v h n hv
        rcases reserve_cases v h n with ⟨_, hr⟩ | ⟨_, _, hr⟩ | ⟨hk, _, hr⟩ <;>
          rw [hr] at this ⊢ <;> exact this
      · rw [if_neg h3]; exact hv

theorem null_iff_zero_resize [Inhabited T] (v : vector) (h : Heap T) (n : Nat)
    (hv : v.null_iff_zero) : (final (v.resize h n)).2.null_iff_zero := by
  unfold vector.resize
  by_cases h1 : n = v.numElements
  · rw [if_pos h1]; exact hv
  · rw [if_neg h1]
    by_cases h2 : n < v.numElements
    · rw [if_pos h2]; exact hv
    · rw [if_neg h2]
      by_cases h3 : n > v.numCapacity
      · rw [if_pos h3]
        have := null_iff_zero_reserve v h n hv
        rcases reserve_cases v h n with ⟨_, hr⟩ | ⟨_, _, hr⟩ | ⟨hk, _, hr⟩ <;>
          rw [hr] at this ⊢ <;> exact this
      · rw [if_neg h3]; exact hv

theorem null_iff_zero_shrink_to_fit (v : vector) (h : Heap T)
    (hv : v.null_iff_zero) : (final (v.shrink_to_fit h)).2.null_iff_zero := by
  unfold vector.null_iff_zero at *
  unfold vector.shrink_to_fit Heap.allocate
  split_ifs <;> simp only [final] <;> first | exact hv | (simp <;> assumption)

theorem null_iff_zero_swap (o : Nat → vector) (this rhs : Nat)
    (h1 : (o this).null_iff_zero) (h2 : (o rhs).null_iff_zero) :
    (vector.swap o this rhs this).null_iff_zero ∧ (vector.swap o this rhs rhs).null_iff_zero := by
  unfold vector.null_iff_zero at *
  by_cases he : this = rhs
  · subst he; simp [vector.swap, h1]
  · have he2 : rhs ≠ this := fun e => he e.symm
    simp [vector.swap, Function.update, he, he2, h1, h2]

theorem null_iff_zero_assign_copy (h : Heap T) (o : Nat → vector) (this rhs : Nat)
    (h1 : (o this).null_iff_zero) (h2 : (o rhs).null_iff_zero) :
    ((final (vector.assign_copy h o this rhs)).2 this).null_iff_zero ∧
      ((final (vector.assign_copy h o this rhs)).2 rhs).null_iff_zero := by
  unfold vector.null_iff_zero at *
  unfold vector.assign_copy Heap.allocate
  by_cases he : this = rhs
  · subst he; simp [final, h1]
  · have he2 : rhs ≠ this := fun e => he e.symm
    simp only [ne_eq, he, not_false_eq_true, if_true]
    split_ifs with hgt hm <;> simp [final, Function.update, he2, h1, h2]
    omega

theorem null_iff_zero_assign_move (h : Heap T) (o : Nat → vector) (this rhs : Nat)
    (h1 : (o this).null_iff_zero) (h2 : (o rhs).null_iff_zero) :
    ((vector.assign_move h o this rhs).2 this).null_iff_zero ∧
      ((vector.assign_move h o this rhs).2 rhs).null_iff_zero := by
  unfold vector.null_iff_zero at *
  unfold vector.assign_move
  by_cases he : this = rhs
  · subst he; simp [h1]
  · have he2 : rhs ≠ this := fun e => he e.symm
    simp [Function.update, he, he2, h1, h2]

/-- The constructors that establish the invariant: the empty one, the two
sized ones, the initializer-list one on a list that is not empty, the copy
constructor from a source holding an element, and the move constructor. -/
theorem null_iff_zero_constructors [Inhabited T] :
    vector.ctor.null_iff_zero ∧
    (∀ (h : Heap T) (n : Nat), built vector.null_iff_zero (vector.ctor_default h n)) ∧
    (∀ (h : Heap T) (n : Nat) (t : T), built vector.null_iff_zero (vector.ctor_fill h n t)) ∧
    (∀ (h : Heap T) (l : List T) (g : Nat), l ≠ [] →
      built vector.null_iff_zero (vector.ctor_list h l g)) ∧
    (∀ (h : Heap T) (rhs : vector), rhs.null_iff_zero → 0 < rhs.numElements →
      built vector.null_iff_zero (vector.ctor_copy h rhs)) ∧
    (∀ rhs : vector, rhs.null_iff_zero →
      (vector.ctor_move rhs).1.null_iff_zero ∧ (vector.ctor_move rhs).2.null_iff_zero) := by
  refine ⟨by simp [vector.ctor, vector.null_iff_zero], ?_, ?_, ?_, ?_, ?_⟩
  · intro h n
    unfold vector.ctor_default Heap.allocate
    split_ifs <;> simp [built, vector.null_iff_zero] <;> omega
  · intro h n t
    unfold vector.ctor_fill Heap.allocate
    split_ifs <;> simp [built, vector.null_iff_zero] <;> omega
  · intro h l g hl
    have hpos : 0 < l.length := List.length_pos.mpr hl
    by_cases hm : l.length ≤ h.avail
    · simp [vector.ctor_list, Heap.allocate, hpos, hm, built, vector.null_iff_zero, hl]
    · simp [vector.ctor_list, Heap.allocate, hpos, hm, built]
  · intro h rhs _ hpos
    unfold vector.ctor_copy Heap.allocate
    split_ifs <;> simp [built, vector.null_iff_zero] <;> omega
  · intro rhs hr
    exact ⟨hr, by simp [vector.ctor_move, vector.null_iff_zero]⟩

/-- C4, at the failing input: the initializer-list constructor called on the
empty list returns a container of capacity 0 whose `data` is whatever the
member held (here 77), so storage is not absent although the capacity is 0. -/
theorem ctor_list_empty_breaks_null_iff_zero :
    vector.ctor_list (Heap.init 4 : Heap Nat) [] 77 = .ok (Heap.init 4, ⟨77, 0, 0⟩) ∧
    ¬ (⟨77, 0, 0⟩ : vector).null_iff_zero :=
  ⟨rfl, by decide⟩

/-- The copy constructor applied to a source of capacity 4 and size 0 (the
empty container after `reserve(4)`) returns a container of capacity 0 whose
storage is the block `allocate(0)` gave: not absent. -/
theorem ctor_copy_of_reserved_breaks_null_iff_zero :
    ∃ h1 h2 : Heap Nat,
      vector.ctor.reserve (Heap.init 4 : Heap Nat) 4 = .ok (h1, ⟨1, 4, 0⟩) ∧
      (⟨1, 4, 0⟩ : vector).null_iff_zero ∧
      vector.ctor_copy h1 ⟨1, 4, 0⟩ = .ok (h2, ⟨6, 0, 0⟩) ∧
      ¬ (⟨6, 0, 0⟩ : vector).null_iff_zero :=
  ⟨_, _, rfl, by decide, rfl, by decide⟩

/-! ## C5, C6: reserve -/

/-- C5: `reserve(k)` with `k ≤ capacity()` returns normally and leaves the
memory and the container (storage, capacity, size, every element) as they
were. -/
theorem reserve_within_capacity (v : vector) (h : Heap T) (k : Nat) (hk : k ≤ v.capacity) :
    v.reserve h k = .ok (h, v) ∧
      ∀ s, v.reserve h k = .ok s →
        s.2.data = v.data ∧ s.2.capacity = v.capacity ∧ s.2.size = v.size ∧
        ∀ i, s.2.index s.1 i = v.index h i := by
  have hr := reserve_noop v h k hk
  refine ⟨hr, ?_⟩
  intro s hs
  rw [hr] at hs
  cases hs
  exact ⟨rfl, rfl, rfl, fun _ => rfl⟩

/-- Witness of C5: `reserve(3)` on a container of capacity 4 holding 7, 8. -/
theorem reserve_within_capacity_witness :
    (⟨1, 4, 2⟩ : vector).reserve (Heap.of_list [7, 8] 2 9 : Heap Nat) 3
        = .ok (Heap.of_list [7, 8] 2 9, ⟨1, 4, 2⟩) :=
  (reserve_within_capacity ⟨1, 4, 2⟩ (Heap.of_list [7, 8] 2 9) 3 (by decide)).1

/-- C6: for a container with `size ≤ capacity` whose block the allocator has
handed out, `reserve(k)` with `k > capacity()` and `k` slots available returns
normally with capacity exactly `k`, the size unchanged, and element `i` as
before for every `i < size()`. -/
theorem reserve_beyond_capacity (v : vector) (h : Heap T) (k : Nat)
    (hv : v.size_le_capacity) (hown : h.holds v) (hk : v.capacity < k) (hmem : k ≤ h.avail) :
    ∃ h' v', v.reserve h k = .ok (h', v') ∧ v'.capacity = k ∧ v'.size = v.size ∧
      ∀ i, i < v.size → v'.index h' i = v.index h i := by
  unfold vector.size_le_capacity Heap.holds vector.capacity at *
  refine ⟨_, _, reserve_grow v h k hk hmem, rfl, rfl, ?_⟩
  intro i hi
  unfold vector.size at hi
  show (reserve_heap v h k).mem (h.brk + 1 + i) = h.mem (v.data + i)
  rw [reserve_heap_mem v h k hmem (by omega)]
  rw [if_neg (by omega), if_pos (by omega)]
  congr 1; omega

/-- Witness of C6: `reserve(5)` on a full container of capacity 2 holding 7, 8. -/
theorem reserve_beyond_capacity_witness :
    ∃ h' v', (⟨1, 2, 2⟩ : vector).reserve (Heap.of_list [7, 8] 0 9 : Heap Nat) 5
          = .ok (h', v') ∧ v'.capacity = 5 ∧ v'.size = 2 ∧
      ∀ i, i < 2 → v'.index h' i = (⟨1, 2, 2⟩ : vector).index (Heap.of_list [7, 8] 0 9) i :=
  reserve_beyond_capacity ⟨1, 2, 2⟩ (Heap.of_list [7, 8] 0 9) 5
    (by decide) (by decide) (by decide) (by decide)

/-! ## C7: shrink_to_fit -/

/-- What `push_back` leaves alone: every slot the allocator had handed out
that is not a slot `data[0 .. size]` of the container itself. -/
theorem push_back_frame (v : vector) (h : Heap T) (t : Ref T)
    (hown : v.data + v.numElements ≤ h.brk + 1) (a : Nat) (ha : a ≤ h.brk)
    (hout : ¬ (v.data ≤ a ∧ a ≤ v.data + v.numElements)) :
    (final (v.push_back h t)).1.mem a = h.mem a := by
  rcases push_back_cases v h t with ⟨_, _, _, _, hr⟩ | ⟨k, hk, hm, _, hr⟩ | ⟨_, hr⟩ <;>
    rw [hr] <;> simp only [final]
  · simp only [Heap.construct_ref, Heap.store_mem]
    rw [if_neg (by omega), reserve_heap_mem v h k hm hown]
    rw [if_neg (by omega), if_neg (by omega), if_neg (by omega)]
  · simp only [Heap.construct_ref, Heap.store_mem]
    rw [if_neg (by omega)]

/-- What `pop_back` on a container holding an element leaves alone: every
slot that is not one of its live slots. -/
theorem pop_back_frame (v : vector) (h : Heap T) (hpos : 0 < v.numElements) (a : Nat)
    (hout : ¬ (v.data ≤ a ∧ a < v.data + v.numElements)) :
    (v.pop_back h).1.mem a = h.mem a := by
  have := size_sub_one_lt hpos
  unfold vector.pop_back
  split
  · simp only [Heap.destroy, Heap.store_mem]
    rw [if_neg (by omega)]
  · rfl

theorem ctor_copy_allocates (h : Heap T) (rhs : vector) (hc : 0 < rhs.numCapacity)
    (hmem : rhs.numElements ≤ h.avail) :
    vector.ctor_copy h rhs
        = .ok (copy_heap h rhs, ⟨h.brk + 1, rhs.numElements, rhs.numElements⟩) ∧
      (copy_heap h rhs).brk = h.brk + 1 + rhs.numElements ∧
      (rhs.data + rhs.numElements ≤ h.brk + 1 → ∀ a, (copy_heap h rhs).mem a =
        if h.brk + 1 ≤ a ∧ a < h.brk + 1 + rhs.numElements then h.mem (rhs.data + (a - (h.brk + 1)))
        else h.mem a) := by
  refine ⟨by simp only [vector.ctor_copy, copy_heap, gt_iff_lt, hc, if_true, Heap.allocate, hmem],
    ?_, ?_⟩
  · simp only [copy_heap, Heap.allocate, hmem, if_true, forRange]
    rw [forLoop_brk]
    intros; rfl
  · intro hsep a
    simp only [copy_heap, Heap.allocate, hmem, if_true, forRange, Nat.sub_zero]
    rw [copy_loop_mem _ _ _ _ _ (by omega)]
    simp only [Nat.add_zero]
    split_ifs <;> first | rfl | omega

/-- C8: for a source with `size ≤ capacity` whose block the allocator has
handed out (and `size()` slots available), the copy constructor returns a
container with the size of the source, capacity equal to the size of the
source, and the same element at every index below the size; the elements of
the source are as before; and `push_back` (whatever its argument refers to),
`pop_back` (on a container holding an element) or an element write performed afterwards on either container
leaves every element of the other one as it was.  The members `data`,
`numCapacity`, `numElements` of the other container are not in reach of these
calls: they take `*this` alone. -/
theorem ctor_copy_independent (h : Heap T) (src : vector)
    (hv : src.size_le_capacity) (hown : h.holds src) (hmem : src.size ≤ h.avail) :
    ∃ h1 c, vector.ctor_copy h src = .ok (h1, c) ∧
      c.size = src.size ∧ c.capacity = src.size ∧
      (∀ i, i < src.size → c.index h1 i = src.index h i) ∧
      (∀ i, i < src.size → src.index h1 i = src.index h i) ∧
      (∀ (t : Ref T) i, i < src.size →
        src.index (final (c.push_back h1 t)).1 i = src.index h1 i) ∧
      (0 < c.size → ∀ i, i < src.size → src.index (c.pop_back h1).1 i = src.index h1 i) ∧
      (∀ (j : Nat) (t : T), j < c.size → ∀ i, i < src.size →
        src.index (c.set h1 j t) i = src.index h1 i) ∧
      (∀ (t : Ref T) i, i < c.size →
        c.index (final (src.push_back h1 t)).1 i = c.index h1 i) ∧
      (0 < src.size → ∀ i, i < c.size → c.index (src.pop_back h1).1 i = c.index h1 i) ∧
      (∀ (j : Nat) (t : T), j < src.size → ∀ i, i < c.size →
        c.index (src.set h1 j t) i = c.index h1 i) := by
  unfold vector.size_le_capacity Heap.holds vector.size vector.capacity at *
  by_cases hc : 0 < src.numCapacity
  · obtain ⟨hcopy, hbrk, hmem1⟩ := ctor_copy_allocates h src hc hmem
    have hm := hmem1 (by omega)
    generalize copy_heap h src = h1 at hcopy hbrk hm
    refine ⟨h1, _, hcopy, rfl, rfl, ?_, ?_, ?_, ?_, ?_, ?_, ?_, ?_⟩
    · intro i hi
      show h1.mem (h.brk + 1 + i) = h.mem (src.data + i)
      rw [hm, if_pos (by omega)]; congr 1; omega
    · intro i hi
      show h1.mem (src.data + i) = h.mem (src.data + i)
      rw [hm, if_neg (by omega)]
    · intro t i hi
      exact push_back_frame _ h1 t (by show h.brk + 1 + src.numElements ≤ h1.brk + 1; omega) _
        (by omega) (by show ¬ (h.brk + 1 ≤ src.data + i ∧ _); omega)
    · intro hpos i hi
      exact pop_back_frame _ h1 hpos _ (by show ¬ (h.brk + 1 ≤ src.data + i ∧ _); omega)
    · intro j t hj i hi
      show (h1.store (h.brk + 1 + j) (some t)).mem (src.data + i) = h1.mem (src.data + i)
      rw [Heap.store_mem, if_neg (by omega)]
    · intro t i hi
      have hi2 : i < src.numElements := hi
      exact push_back_frame src h1 t (by omega) _ (by show h.brk + 1 + i ≤ h1.brk; omega)
        (by show ¬ (src.data ≤ h.brk + 1 + i ∧ h.brk + 1 + i ≤ _); omega)
    · intro hpos i hi
      have hi2 : i < src.numElements := hi
      exact pop_back_frame src h1 hpos _
        (by show ¬ (src.data ≤ h.brk + 1 + i ∧ h.brk + 1 + i < _); omega)
    · intro j t hj i hi
      have hi2 : i < src.numElements := hi
      show (h1.store (src.data + j) (some t)).mem (h.brk + 1 + i) = h1.mem (h.brk + 1 + i)
      rw [Heap.store_mem, if_neg (by omega)]
  · have h0 : src.numElements = 0 := by omega
    refine ⟨h, ⟨0, 0, 0⟩, by simp [vector.ctor_copy, hc], h0.symm, h0.symm, ?_, ?_, ?_, ?_,
      ?_, ?_, ?_, ?_⟩
    · intro i hi; omega
    · intro i hi; omega
    · intro t i hi; omega
    · intro hpos; exact absurd hpos (Nat.lt_irrefl 0)
    · intro j t hj; exact absurd hj (Nat.not_lt_zero j)
    · intro t i hi; exact absurd hi (Nat.not_lt_zero i)
    · intro hpos; omega
    · intro j t hj; omega

/-- Witness of C8: copying the container of capacity 4 that holds 7, 8. -/
theorem ctor_copy_independent_witness :
    ∃ h1 c, vector.ctor_copy (Heap.of_list [7, 8] 2 9 : Heap Nat) ⟨1, 4, 2⟩ = .ok (h1, c) ∧
      c.size = 2 ∧ c.capacity = 2 ∧
      (∀ i, i < 2 → c.index h1 i = (⟨1, 4, 2⟩ : vector).index (Heap.of_list [7, 8] 2 9) i) :=
  let ⟨h1, c, hc, hs, hcap, hel, _⟩ :=
    ctor_copy_independent (Heap.of_list [7, 8] 2 9 : Heap Nat) ⟨1, 4, 2⟩
      (by decide) (by decide) (by decide)
  ⟨h1, c, hc, hs, hcap, hel⟩

/-! ## C9: moving -/

/-- C9: the move constructor returns a container with the storage, size and
capacity of its source (hence the same elements, the memory being untouched)
and leaves the source with size 0, capacity 0, storage absent and `empty()`
true; move assignment between two distinct containers whose live ranges do not
overlap does the same, the elements of the destination being afterwards those
the source had. -/
theorem move_transfers (h : Heap T) (o : Nat → vector) (this rhs : Nat) (src : vector)
    (hne : this ≠ rhs)
    (hdisj : (o this).data + (o this).numElements ≤ (o rhs).data ∨
      (o rhs).data + (o rhs).numElements ≤ (o this).data) :
    ((vector.ctor_move src).1 = src ∧
      (vector.ctor_move src).2.size = 0 ∧ (vector.ctor_move src).2.capacity = 0 ∧
      (vector.ctor_move src).2.data = 0 ∧ (vector.ctor_move src).2.empty = true) ∧
    ((vector.assign_move h o this rhs).2 this = o rhs ∧
      (∀ i, i < (o rhs).size →
        ((vector.assign_move h o this rhs).2 this).index (vector.assign_move h o this rhs).1 i
          = (o rhs).index h i) ∧
      ((vector.assign_move h o this rhs).2 rhs).size = 0 ∧
      ((vector.assign_move h o this rhs).2 rhs).capacity = 0 ∧
      ((vector.assign_move h o this rhs).2 rhs).data = 0 ∧
      ((vector.assign_move h o this rhs).2 rhs).empty = true) := by
  have he2 : rhs ≠ this := fun e => hne e.symm
  have hthis : (vector.assign_move h o this rhs).2 this = o rhs := by
    simp [vector.assign_move, hne, he2, Function.update]
  have hrhs : (vector.assign_move h o this rhs).2 rhs = ⟨0, 0, 0⟩ := by
    simp [vector.assign_move, hne, he2, Function.update]
  have hmem : ∀ a, (vector.assign_move h o this rhs).1.mem a
      = if (o this).data + 0 ≤ a ∧ a < (o this).data + 0 + (o this).numElements then none
        else h.mem a := by
    intro a
    simp only [vector.assign_move, ne_eq, hne, not_false_eq_true, if_true, Heap.deallocate_mem,
      forRange, Nat.sub_zero]
    rw [destroy_loop_mem]
  refine ⟨⟨rfl, rfl, rfl, rfl, rfl⟩, hthis, ?_, ?_, ?_, ?_, ?_⟩
  · intro i hi
    unfold vector.size at hi
    rw [hthis]
    unfold vector.index
    rw [hmem, if_neg (by omega)]
  · rw [hrhs]; rfl
  · rw [hrhs]; rfl
  · rw [hrhs]
  · rw [hrhs]; rfl

/-- Witness of C9: `a = std::move(b)` for `a` holding 5 at address 1 and `b`
holding 7, 8 at address 3. -/
theorem move_transfers_witness :
    (vector.assign_move (Heap.init 0 : Heap Nat)
        (fun k => if k = 0 then ⟨1, 1, 1⟩ else ⟨3, 2, 2⟩) 0 1).2 0 = ⟨3, 2, 2⟩ ∧
    ((vector.assign_move (Heap.init 0 : Heap Nat)
        (fun k => if k = 0 then ⟨1, 1, 1⟩ else ⟨3, 2, 2⟩) 0 1).2 1).empty = true :=
  let w := move_transfers (Heap.init 0 : Heap Nat)
    (fun k => if k = 0 then ⟨1, 1, 1⟩ else ⟨3, 2, 2⟩) 0 1 ⟨3, 2, 2⟩ (by decide) (by decide)
  ⟨w.2.1, w.2.2.2.2.2.2⟩

/-! ## C10, C11: resize -/

theorem resize_eq_resize_fill [Inhabited T] (v : vector) (h : Heap T) (n : Nat) :
    v.resize h n = v.resize_fill h n (.val default) := rfl

theorem resize_fill_grows (v : vector) (h : Heap T) (n : Nat) (t : T)
    (hv : v.size_le_capacity) (hown : h.holds v) (hn : v.size < n)
    (hmem : v.capacity < n → n ≤ h.avail) :
    ∃ h' v', v.resize_fill h n (.val t) = .ok (h', v') ∧ v'.size = n ∧
      v'.capacity = max v.capacity n ∧
      (∀ i, i < v.size → v'.index h' i = v.index h i) ∧
      (∀ i, v.size ≤ i → i < n → v'.index h' i = some t) := by
  unfold vector.size_le_capacity Heap.holds vector.size vector.capacity at *
  have h1 : ¬ n = v.numElements := by omega
  have h2 : ¬ n < v.numElements := by omega
  by_cases h3 : n > v.numCapacity
  · have hm := hmem h3
    refine ⟨forRange v.numElements n (fun i m => m.construct (h.brk + 1 + i) t)
        (reserve_heap v h n), ⟨h.brk + 1, n, n⟩, ?_, rfl, ?_, ?_, ?_⟩
    · simp only [vector.resize_fill, if_neg h1, if_neg h2, if_pos h3, reserve_grow v h n h3 hm,
        Heap.construct_ref_val]
    · show n = max v.numCapacity n
      rw [Nat.max_eq_right (by omega)]
    · intro i hi
      show Heap.mem (forRange _ _ _ _) (h.brk + 1 + i) = h.mem (v.data + i)
      simp only [forRange]
      rw [construct_loop_mem, if_neg (by omega), reserve_heap_mem v h n hm (by omega),
        if_neg (by omega), if_pos (by omega)]
      congr 1; omega
    · intro i hi1 hi2
      show Heap.mem (forRange _ _ _ _) (h.brk + 1 + i) = some t
      simp only [forRange]
      rw [construct_loop_mem, if_pos (by omega)]
  · refine ⟨forRange v.numElements n (fun i m => m.construct (v.data + i) t) h,
        { v with numElements := n }, ?_, rfl, ?_, ?_, ?_⟩
    · simp only [vector.resize_fill, if_neg h1, if_neg h2, if_neg h3, Heap.construct_ref_val]
    · show v.numCapacity = max v.numCapacity n
      rw [Nat.max_eq_left (by omega)]
    · intro i hi
      show Heap.mem (forRange _ _ _ _) (v.data + i) = h.mem (v.data + i)
      simp only [forRange]
      rw [construct_loop_mem, if_neg (by omega)]
    · intro i hi1 hi2
      show Heap.mem (forRange _ _ _ _) (v.data + i) = some t
      simp only [forRange]
      rw [construct_loop_mem, if_pos (by omega)]

/-- The calls whose argument is an object of the caller, not an element of the
container: for a container with `size ≤ capacity` whose block the allocator
has handed out and every `n > size()` (with `n` slots available when `n`
exceeds the capacity), `resize(n, t)` returns normally with size `n`, capacity
`max(old capacity, n)`, the old elements unchanged and every element at an
index in `[old size, n)` equal to `t`; `resize(n)` does the same with the
default value of the element type. -/
theorem resize_grows [Inhabited T] (v : vector) (h : Heap T) (n : Nat) (t : T)
    (hv : v.size_le_capacity) (hown : h.holds v) (hn : v.size < n)
    (hmem : v.capacity < n → n ≤ h.avail) :
    (∃ h' v', v.resize_fill h n (.val t) = .ok (h', v') ∧ v'.size = n ∧
      v'.capacity = max v.capacity n ∧
      (∀ i, i < v.size → v'.index h' i = v.index h i) ∧
      (∀ i, v.size ≤ i → i < n → v'.index h' i = some t)) ∧
    (∃ h' v', v.resize h n = .ok (h', v') ∧ v'.size = n ∧
      v'.capacity = max v.capacity n ∧
      (∀ i, i < v.size → v'.index h' i = v.index h i) ∧
      (∀ i, v.size ≤ i → i < n → v'.index h' i = some default)) := by
  refine ⟨resize_fill_grows v h n t hv hown hn hmem, ?_⟩
  rw [resize_eq_resize_fill]
  exact resize_fill_grows v h n default hv hown hn hmem

/-- An instance: `resize(5, 9)` and `resize(5)` on a full container of capacity
2 holding 7, 8. -/
theorem resize_grows_example :
    (∃ h' v', (⟨1, 2, 2⟩ : vector).resize_fill (Heap.of_list [7, 8] 0 9 : Heap Nat) 5 (.val 9)
        = .ok (h', v') ∧ v'.size = 5 ∧ v'.capacity = max 2 5 ∧
      (∀ i, i < 2 → v'.index h' i = (⟨1, 2, 2⟩ : vector).index (Heap.of_list [7, 8] 0 9) i) ∧
      (∀ i, 2 ≤ i → i < 5 → v'.index h' i = some 9)) ∧
    (∃ h' v', (⟨1, 2, 2⟩ : vector).resize (Heap.of_list [7, 8] 0 9 : Heap Nat) 5
        = .ok (h', v') ∧ v'.size = 5 ∧ v'.capacity = max 2 5 ∧
      (∀ i, i < 2 → v'.index h' i = (⟨1, 2, 2⟩ : vector).index (Heap.of_list [7, 8] 0 9) i) ∧
      (∀ i, 2 ≤ i → i < 5 → v'.index h' i = some default)) :=
  resize_grows ⟨1, 2, 2⟩ (Heap.of_list [7, 8] 0 9) 5 9 (by decide) (by decide) (by decide)
    (by decide)

/-- C10, at the failing input: the container holds 7, 8 and is full, with
capacity 2, and satisfies both invariants.  The call `v.resize(5, v[0])` has
to grow: `reserve(5)` moves the two elements to a new block and destroys and
frees the old one, and only then is the argument read, three times, so the
elements at the indices 2, 3, 4 are constructed from a slot that holds no
object any more and are not the 7 that `v[0]` was.  Size, capacity and the old
elements are as the claim says.  On a container of capacity 5 the same call
stores 7 three times. -/
theorem resize_fill_own_element_reads_freed_slot :
    ∃ h1 v1 h2 v2,
      (⟨1, 2, 2⟩ : vector).size_le_capacity ∧ (⟨1, 2, 2⟩ : vector).null_iff_zero ∧
      (Heap.of_list [7, 8] 0 9 : Heap Nat).holds ⟨1, 2, 2⟩ ∧
      (⟨1, 2, 2⟩ : vector).index (Heap.of_list [7, 8] 0 9 : Heap Nat) 0 = some 7 ∧
      (⟨1, 2, 2⟩ : vector).resize_fill (Heap.of_list [7, 8] 0 9 : Heap Nat) 5 (Ref.slot (1 + 0))
        = .ok (h1, v1) ∧
      v1.size = 5 ∧ v1.capacity = 5 ∧ v1.index h1 0 = some 7 ∧ v1.index h1 1 = some 8 ∧
      v1.index h1 2 = none ∧ v1.index h1 3 = none ∧ v1.index h1 4 = none ∧
      (⟨1, 5, 2⟩ : vector).resize_fill (Heap.of_list [7, 8] 3 9 : Heap Nat) 5 (Ref.slot (1 + 0))
        = .ok (h2, v2) ∧
      v2.size = 5 ∧ v2.index h2 2 = some 7 ∧ v2.index h2 3 = some 7 ∧ v2.index h2 4 = some 7 :=
  ⟨_, _, _, _, by decide, by decide, by decide, rfl, rfl, rfl, rfl, rfl, rfl, rfl, rfl, rfl,
    rfl, rfl, rfl, rfl, rfl⟩

theorem resize_fill_shrinks (v : vector) (h : Heap T) (n : Nat) (t : Ref T) (hn : n ≤ v.size) :
    ∃ h' v', v.resize_fill h n t = .ok (h', v') ∧ v'.size = n ∧
      v'.capacity = v.capacity ∧ v'.data = v.data ∧
      (∀ i, i < n → v'.index h' i = v.index h i) ∧
      (n = v.size → h' = h ∧ v' = v) := by
  unfold vector.size at *
  by_cases h1 : n = v.numElements
  · exact ⟨h, v, by simp only [vector.resize_fill, if_pos h1], h1.symm, rfl, rfl,
      fun _ _ => rfl, fun _ => ⟨rfl, rfl⟩⟩
  · have h2 : n < v.numElements := by omega
    refine ⟨forRange n v.numElements (fun i m => m.destroy (v.data + i)) h,
      { v with numElements := n }, by simp only [vector.resize_fill, if_neg h1, if_pos h2],
      rfl, rfl, rfl, ?_, fun e => absurd e h1⟩
    intro i hi
    show Heap.mem (forRange _ _ _ _) (v.data + i) = h.mem (v.data + i)
    simp only [forRange]
    rw [destroy_loop_mem, if_neg (by omega)]

/-- C11: for every `n ≤ size()`, `resize(n, t)` (whatever `t` refers to) and
`resize(n)` return normally with size `n`, the capacity and the storage pointer unchanged and the first `n`
elements as before; when `n == size()` memory and container are exactly as
before. -/
theorem resize_shrinks [Inhabited T] (v : vector) (h : Heap T) (n : Nat) (t : Ref T)
    (hn : n ≤ v.size) :
    (∃ h' v', v.resize_fill h n t = .ok (h', v') ∧ v'.size = n ∧
      v'.capacity = v.capacity ∧ v'.data = v.data ∧
      (∀ i, i < n → v'.index h' i = v.index h i) ∧
      (n = v.size → h' = h ∧ v' = v)) ∧
    (∃ h' v', v.resize h n = .ok (h', v') ∧ v'.size = n ∧
      v'.capacity = v.capacity ∧ v'.data = v.data ∧
      (∀ i, i < n → v'.index h' i = v.index h i) ∧
      (n = v.size → h' = h ∧ v' = v)) := by
  refine ⟨resize_fill_shrinks v h n t hn, ?_⟩
  rw [resize_eq_resize_fill]
  exact resize_fill_shrinks v h n (.val default) hn

/-- Witness of C11: `resize(1, 9)` and `resize(1)` on the container of capacity
4 holding 7, 8. -/
theorem resize_shrinks_witness :
    (∃ h' v', (⟨1, 4, 2⟩ : vector).resize_fill (Heap.of_list [7, 8] 2 9 : Heap Nat) 1 (.val 9)
        = .ok (h', v') ∧ v'.size = 1 ∧ v'.capacity = 4 ∧ v'.data = 1 ∧
      (∀ i, i < 1 → v'.index h' i = (⟨1, 4, 2⟩ : vector).index (Heap.of_list [7, 8] 2 9) i) ∧
      (1 = 2 → h' = Heap.of_list [7, 8] 2 9 ∧ v' = ⟨1, 4, 2⟩)) ∧
    (∃ h' v', (⟨1, 4, 2⟩ : vector).resize (Heap.of_list [7, 8] 2 9 : Heap Nat) 1
        = .ok (h', v') ∧ v'.size = 1 ∧ v'.capacity = 4 ∧ v'.data = 1 ∧
      (∀ i, i < 1 → v'.index h' i = (⟨1, 4, 2⟩ : vector).index (Heap.of_list [7, 8] 2 9) i) ∧
      (1 = 2 → h' = Heap.of_list [7, 8] 2 9 ∧ v' = ⟨1, 4, 2⟩)) :=
  resize_shrinks ⟨1, 4, 2⟩ (Heap.of_list [7, 8] 2 9) 1 (.val 9) (by decide)

/-! ## C13, C14: clear and empty -/

/-- C13: `clear()` sets the size to 0 and leaves the capacity and the storage
pointer as they were. -/
theorem clear_keeps_storage (v : vector) (h : Heap T) :
    (v.clear h).2.size = 0 ∧ (v.clear h).2.capacity = v.capacity ∧
      (v.clear h).2.data = v.data :=
  ⟨rfl, rfl, rfl⟩

/-- C14: `empty()` is true exactly when the capacity is 0; the empty container
after one `push_back` (a slot being available) and `clear()` has size 0 and
`empty()` false. -/
theorem empty_iff_capacity_zero (v : vector) (h : Heap T) (t : Ref T) (hmem : 1 ≤ h.avail) :
    (v.empty = true ↔ v.capacity = 0) ∧
    ∃ h1 v1, vector.ctor.push_back h t = .ok (h1, v1) ∧
      (v1.clear h1).2.size = 0 ∧ (v1.clear h1).2.empty = false := by
  constructor
  · unfold vector.empty vector.capacity
    split <;> simp [*]
  · obtain ⟨h1, v1, hp, _, _, hcap, _⟩ :=
      push_back_shape h vector.ctor t (shape_ctor h)
        (by simp only [vector.ctor]; decide) (fun _ => by simpa [vector.ctor] using hmem)
    refine ⟨h1, v1, hp, rfl, ?_⟩
    have hc1 : v1.numCapacity = 1 := by rw [hcap]; rfl
    show (if v1.numCapacity = 0 then true else false) = false
    rw [hc1]; rfl

/-- Witness of C14: `push_back(7)` then `clear()` on a heap of 4 slots. -/
theorem empty_iff_capacity_zero_witness :
    ((⟨1, 1, 0⟩ : vector).empty = true ↔ (⟨1, 1, 0⟩ : vector).capacity = 0) ∧
    ∃ h1 v1, vector.ctor.push_back (Heap.init 4 : Heap Nat) (.val 7) = .ok (h1, v1) ∧
      (v1.clear h1).2.size = 0 ∧ (v1.clear h1).2.empty = false :=
  empty_iff_capacity_zero ⟨1, 1, 0⟩ (Heap.init 4) (.val 7) (by decide)

/-! ## C15: swap -/

/-- C15: after `a.swap(b)` the members of `a` (storage, size, capacity) are
those `b` had and the members of `b` those `a` had, the memory (hence every
element) being untouched; and when both satisfied the invariants `size ≤
capacity` and `storage absent iff capacity 0` before, both satisfy them
after. -/
theorem swap_exchanges (o : Nat → vector) (this rhs : Nat) :
    vector.swap o this rhs this = o rhs ∧ vector.swap o this rhs rhs = o this ∧
    ((o this).size_le_capacity → (o this).null_iff_zero →
      (o rhs).size_le_capacity → (o rhs).null_iff_zero →
      (vector.swap o this rhs this).size_le_capacity ∧
      (vector.swap o this rhs this).null_iff_zero ∧
      (vector.swap o this rhs rhs).size_le_capacity ∧
      (vector.swap o this rhs rhs).null_iff_zero) := by
  have e1 : vector.swap o this rhs this = o rhs := by
    by_cases he : this = rhs
    · subst he; simp [vector.swap]
    · have he2 : rhs ≠ this := fun e => he e.symm
      simp [vector.swap, Function.update, he, he2]
  have e2 : vector.swap o this rhs rhs = o this := by
    by_cases he : this = rhs
    · subst he; simp [vector.swap]
    · have he2 : rhs ≠ this := fun e => he e.symm
      simp [vector.swap, Function.update, he, he2]
  refine ⟨e1, e2, ?_⟩
  intro a1 a2 b1 b2
  rw [e1, e2]
  exact ⟨b1, b2, a1, a2⟩

/-- Witness of C15: swapping a container of capacity 4 holding two elements
with the empty container. -/
theorem swap_exchanges_witness :
    (vector.swap (fun k => if k = 0 then ⟨1, 4, 2⟩ else ⟨0, 0, 0⟩) 0 1 0).size_le_capacity ∧
    (vector.swap (fun k => if k = 0 then ⟨1, 4, 2⟩ else ⟨0, 0, 0⟩) 0 1 0).null_iff_zero ∧
    (vector.swap (fun k => if k = 0 then ⟨1, 4, 2⟩ else ⟨0, 0, 0⟩) 0 1 1).size_le_capacity ∧
    (vector.swap (fun k => if k = 0 then ⟨1, 4, 2⟩ else ⟨0, 0, 0⟩) 0 1 1).null_iff_zero :=
  (swap_exchanges (fun k => if k = 0 then ⟨1, 4, 2⟩ else ⟨0, 0, 0⟩) 0 1).2.2
    (by decide) (by decide) (by decide) (by decide)

/-! ## C16, C17: sized and initializer-list construction -/

/-- C16: with `n` slots available, `vector(n, t)` returns a container of size
`n` and capacity `n` whose elements at the indices below `n` all equal `t`,
with storage absent when `n` is 0. -/
theorem ctor_fill_builds (h : Heap T) (n : Nat) (t : T) (hmem : n ≤ h.avail) :
    ∃ h' v, vector.ctor_fill h n t = .ok (h', v) ∧ v.size = n ∧ v.capacity = n ∧
      (∀ i, i < n → v.index h' i = some t) ∧ (n = 0 → v.data = 0) := by
  by_cases h0 : n > 0
  · refine ⟨forRange 0 n (fun i m => m.construct (h.brk + 1 + i) t)
        { mem := fun a => if h.brk + 1 ≤ a ∧ a < h.brk + 1 + n then none else h.mem a
          brk := h.brk + 1 + n
          avail := h.avail - n },
      ⟨h.brk + 1, n, n⟩, ?_, rfl, rfl, ?_, fun e => by omega⟩
    · simp only [vector.ctor_fill, if_pos h0, Heap.allocate, if_pos hmem]
    · intro i hi
      show Heap.mem (forRange _ _ _ _) (h.brk + 1 + i) = some t
      simp only [forRange]
      rw [construct_loop_mem, if_pos (by omega)]
  · have hn0 : n = 0 := by omega
    subst hn0
    exact ⟨h, ⟨0, 0, 0⟩, by simp [vector.ctor_fill], rfl, rfl, fun i hi => by omega, fun _ => rfl⟩

/-- Witness of C16: `vector(3, 7)` has size 3, capacity 3 and three elements
equal to 7. -/
theorem ctor_fill_builds_witness :
    ∃ h' v, vector.ctor_fill (Heap.init 3 : Heap Nat) 3 7 = .ok (h', v) ∧
      v.size = 3 ∧ v.capacity = 3 ∧
      (∀ i, i < 3 → v.index h' i = some 7) ∧ ((3 : Nat) = 0 → v.data = 0) :=
  ctor_fill_builds (Heap.init 3) 3 7 (by decide)

theorem pop_back_n_spec (k : Nat) (h : Heap T) (v : vector) (hd : v.data ≠ 0)
    (hk : k ≤ v.numElements) (hlen : v.numElements < 2 ^ 64) :
    (pop_back_n k (h, v)).2 = { v with numElements := v.numElements - k } ∧
      ∀ a, a < v.data + (v.numElements - k) → (pop_back_n k (h, v)).1.mem a = h.mem a := by
  induction k generalizing h v with
  | zero => exact ⟨rfl, fun _ _ => rfl⟩
  | succ k ih =>
    have hs : size_sub v.numElements 1 = v.numElements - 1 := size_sub_one (by omega) hlen
    have hp : v.pop_back h = (h.destroy (v.data + (v.numElements - 1)),
        { v with numElements := v.numElements - 1 }) := by
      simp only [vector.pop_back, if_pos hd, hs]
    obtain ⟨e1, e2⟩ := ih (h.destroy (v.data + (v.numElements - 1)))
      { v with numElements := v.numElements - 1 } hd
      (by show k ≤ v.numElements - 1; omega) (by show v.numElements - 1 < 2 ^ 64; omega)
    simp only [pop_back_n, hp]
    refine ⟨?_, ?_⟩
    · rw [e1]
      show (⟨v.data, v.numCapacity, v.numElements - 1 - k⟩ : vector)
        = ⟨v.data, v.numCapacity, v.numElements - (k + 1)⟩
      rw [Nat.sub_sub, Nat.add_comm 1 k]
    · intro a ha
      rw [e2 a (by show a < v.data + (v.numElements - 1 - k); omega)]
      simp only [Heap.destroy, Heap.store_mem]
      rw [if_neg (by omega)]

/-- C17: with `length` slots available, the container built from the list `l`
(shorter than `2 ^ 64`) has size and capacity `length` and element `i` equal to
`l[i]`; and for every `k ≤ length`, after `k` calls of `pop_back()` the size
is `length − k`, the capacity still `length`, and the first `length − k`
elements are as before. -/
theorem ctor_list_then_pop_back (h : Heap T) (l : List T) (g k : Nat)
    (hmem : l.length ≤ h.avail) (hlen : l.length < 2 ^ 64) (hk : k ≤ l.length) :
    ∃ h1 v1, vector.ctor_list h l g = .ok (h1, v1) ∧
      v1.size = l.length ∧ v1.capacity = l.length ∧
      (∀ i, i < l.length → v1.index h1 i = l[i]?) ∧
      (pop_back_n k (h1, v1)).2.size = l.length - k ∧
      (pop_back_n k (h1, v1)).2.capacity = l.length ∧
      (∀ i, i < l.length - k →
        (pop_back_n k (h1, v1)).2.index (pop_back_n k (h1, v1)).1 i = l[i]?) := by
  by_cases h0 : l.length > 0
  · have hel : ∀ i, i < l.length →
        (construct_list (h.brk + 1) l 0
          { mem := fun a => if h.brk + 1 ≤ a ∧ a < h.brk + 1 + l.length then none else h.mem a
            brk := h.brk + 1 + l.length
            avail := h.avail - l.length }).mem (h.brk + 1 + i) = l[i]? := by
      intro i hi
      rw [construct_list_mem, if_pos (by omega)]
      congr 1; omega
    obtain ⟨e1, e2⟩ := pop_back_n_spec k
      (construct_list (h.brk + 1) l 0
        { mem := fun a => if h.brk + 1 ≤ a ∧ a < h.brk + 1 + l.length then none else h.mem a
          brk := h.brk + 1 + l.length
          avail := h.avail - l.length })
      ⟨h.brk + 1, l.length, l.length⟩ (by show h.brk + 1 ≠ 0; omega) hk hlen
    refine ⟨_, ⟨h.brk + 1, l.length, l.length⟩, ?_, rfl, rfl, hel, ?_, ?_, ?_⟩
    · simp only [vector.ctor_list, if_pos h0, Heap.allocate, if_pos hmem]
    · rw [e1]; rfl
    · rw [e1]; rfl
    · intro i hi
      unfold vector.index
      rw [e1]
      show Heap.mem _ (h.brk + 1 + i) = l[i]?
      rw [e2 _ (by show h.brk + 1 + i < h.brk + 1 + (l.length - k); omega)]
      exact hel i (by omega)
  · have hl0 : l.length = 0 := by omega
    have hk0 : k = 0 := by omega
    subst hk0
    refine ⟨h, ⟨g, l.length, l.length⟩, ?_, rfl, rfl, fun i hi => by omega, rfl, rfl,
      fun i hi => by omega⟩
    simp only [vector.ctor_list, if_neg h0]

/-- Witness of C17: the container built from `{1, 2, 3, 4}` and popped twice
has size 2 and holds 2 at index 1. -/
theorem ctor_list_then_pop_back_witness :
    ∃ h1 v1, vector.ctor_list (Heap.init 4 : Heap Nat) [1, 2, 3, 4] 0 = .ok (h1, v1) ∧
      v1.size = 4 ∧ v1.capacity = 4 ∧
      (∀ i, i < 4 → v1.index h1 i = [1, 2, 3, 4][i]?) ∧
      (pop_back_n 2 (h1, v1)).2.size = 2 ∧
      (pop_back_n 2 (h1, v1)).2.capacity = 4 ∧
      (∀ i, i < 2 →
        (pop_back_n 2 (h1, v1)).2.index (pop_back_n 2 (h1, v1)).1 i = [1, 2, 3, 4][i]?) :=
  ctor_list_then_pop_back (Heap.init 4) [1, 2, 3, 4] 0 2 (by decide) (by decide) (by decide)

/-! ## C18: allocation failure -/

theorem allocate_fails_iff (h : Heap T) (n : Nat) :
    h.allocate n = .error h ↔ h.avail < n := by
  unfold Heap.allocate
  by_cases hm : n ≤ h.avail
  · rw [if_pos hm]
    constructor
    · intro e; cases e
    · intro e; omega
  · rw [if_neg hm]
    constructor
    · intro _; omega
    · intro _; rfl

/-- C18: when the allocation fails, `reserve(k)` with `k > capacity`, a
`push_back` that has to grow (to capacity 1 from size 0, or to the doubled
capacity from a full container) and a copy assignment that has to reallocate
(`rhs.size > capacity`, distinct containers) all throw, and the memory and the
container are exactly what they were before the call. -/
theorem bad_alloc_leaves_state (h : Heap T) (v : vector) (k : Nat) (t : Ref T)
    (o : Nat → vector) (this rhs : Nat) :
    (v.capacity < k → h.allocate k = .error h → v.reserve h k = .error (h, v)) ∧
    (((k = 1 ∧ v.size = 0) ∨ (k = wrap (v.capacity * 2) ∧ v.size = v.capacity ∧ v.size ≠ 0)) →
      v.capacity < k → h.allocate k = .error h → v.push_back h t = .error (h, v)) ∧
    (this ≠ rhs → (o rhs).size > (o this).capacity →
      h.allocate (o rhs).size = .error h → vector.assign_copy h o this rhs = .error (h, o)) := by
  unfold vector.capacity vector.size
  refine ⟨?_, ?_, ?_⟩
  · intro hk hf
    exact reserve_fail v h k hk ((allocate_fails_iff h k).mp hf)
  · intro hc hk hf
    have hm := (allocate_fails_iff h k).mp hf
    have hr := reserve_fail v h k hk hm
    rcases hc with ⟨h1, h0⟩ | ⟨h1, h2, h3⟩
    · subst h1
      simp only [vector.push_back, vector.size, if_pos h0, hr]
    · subst h1
      simp only [vector.push_back, vector.size, vector.capacity, if_neg h3, if_pos h2, hr]
  · intro hne hgt hf
    have hm := (allocate_fails_iff h _).mp hf
    simp only [vector.assign_copy, ne_eq, hne, not_false_eq_true, if_true, gt_iff_lt, hgt,
      Heap.allocate, if_neg (Nat.not_le.mpr hm)]

/-- Witness of C18: on a heap with nothing left to hand out, `reserve(5)` and
`push_back(9)` on a full container of capacity 2, and the assignment of a
container of size 3 to it. -/
theorem bad_alloc_leaves_state_witness :
    (⟨1, 2, 2⟩ : vector).reserve (Heap.of_list [7, 8] 0 0 : Heap Nat) 5
      = .error (Heap.of_list [7, 8] 0 0, ⟨1, 2, 2⟩) ∧
    (⟨1, 2, 2⟩ : vector).push_back (Heap.of_list [7, 8] 0 0 : Heap Nat) (.val 9)
      = .error (Heap.of_list [7, 8] 0 0, ⟨1, 2, 2⟩) ∧
    vector.assign_copy (Heap.of_list [7, 8] 0 0 : Heap Nat)
        (fun a => if a = 0 then ⟨1, 2, 2⟩ else ⟨9, 3, 3⟩) 0 1
      = .error (Heap.of_list [7, 8] 0 0, fun a => if a = 0 then ⟨1, 2, 2⟩ else ⟨9, 3, 3⟩) :=
  ⟨(bad_alloc_leaves_state (Heap.of_list [7, 8] 0 0 : Heap Nat) ⟨1, 2, 2⟩ 5 (.val 9)
      (fun a => if a = 0 then ⟨1, 2, 2⟩ else ⟨9, 3, 3⟩) 0 1).1 (by decide) rfl,
   (bad_alloc_leaves_state (Heap.of_list [7, 8] 0 0 : Heap Nat) ⟨1, 2, 2⟩ 4 (.val 9)
      (fun a => if a = 0 then ⟨1, 2, 2⟩ else ⟨9, 3, 3⟩) 0 1).2.1
      (Or.inr ⟨by decide, by decide, by decide⟩) (by decide) rfl,
   (bad_alloc_leaves_state (Heap.of_list [7, 8] 0 0 : Heap Nat) ⟨1, 2, 2⟩ 5 (.val 9)
      (fun a => if a = 0 then ⟨1, 2, 2⟩ else ⟨9, 3, 3⟩) 0 1).2.2 (by decide) (by decide) rfl⟩

/-! ## C19: the iterator -/

theorem iterate_inc (i : Nat) (it : iterator) : (Nat.iterate iterator.inc i it).p = it.p + i := by
  induction i generalizing it with
  | zero => rfl
  | succ i ih => rw [Function.iterate_succ_apply, ih]; show it.p + 1 + i = _; omega

theorem iterate_inc_post (i : Nat) (it : iterator) :
    (Nat.iterate (fun c => (iterator.inc_post c).2) i it).p = it.p + i := by
  induction i generalizing it with
  | zero => rfl
  | succ i ih => rw [Function.iterate_succ_apply, ih]; show it.p + 1 + i = _; omega

/-- C19: `begin()` advanced by `i` increments (in either form) and dereferenced
gives element `i`, for every `i < size()`; advanced `size()` times it equals
`end()`; `begin() == end()` exactly when the size is 0; the postfix forms
return the cursor as it was; and an increment followed by a decrement (in
either form) gives a cursor equal to the original. -/
theorem cursor_bounds_live_region (v : vector) (h : Heap T) (it : iterator) :
    (∀ i, i < v.size → (Nat.iterate iterator.inc i v.begin).deref h = v.index h i) ∧
    (∀ i, i < v.size →
      (Nat.iterate (fun c => (iterator.inc_post c).2) i v.begin).deref h = v.index h i) ∧
    (Nat.iterate iterator.inc v.size v.begin).eq v.end_ = true ∧
    (Nat.iterate (fun c => (iterator.inc_post c).2) v.size v.begin).eq v.end_ = true ∧
    (v.begin.eq v.end_ = true ↔ v.size = 0) ∧
    (v.begin.ne v.end_ = true ↔ v.size ≠ 0) ∧
    it.inc_post.1 = it ∧ it.dec_post.1 = it ∧
    it.inc.dec.eq it = true ∧ (it.inc_post.2).dec_post.2.eq it = true := by
  refine ⟨?_, ?_, ?_, ?_, ?_, ?_, rfl, rfl, ?_, ?_⟩
  · intro i _
    unfold iterator.deref vector.index
    rw [iterate_inc]; rfl
  · intro i _
    unfold iterator.deref vector.index
    rw [iterate_inc_post]; rfl
  · unfold iterator.eq
    rw [iterate_inc]
    exact beq_self_eq_true _
  · unfold iterator.eq
    rw [iterate_inc_post]
    exact beq_self_eq_true _
  · unfold iterator.eq vector.begin vector.end_ vector.size
    simp
  · unfold iterator.ne vector.begin vector.end_ vector.size
    simp
  · unfold iterator.eq iterator.dec iterator.inc
    simp
  · unfold iterator.eq iterator.dec_post iterator.inc_post
    simp

/-! ## C20: pop_back at size 0 -/

theorem size_sub_zero_one : size_sub 0 1 = 2 ^ 64 - 1 := by
  unfold size_sub wrap SIZE_RANGE
  norm_num

/-- C20: on a container of size 0, `pop_back()` changes nothing when storage is
absent, and only then; when storage is present the size becomes `2 ^ 64 − 1`,
which exceeds every capacity below it, so `size ≤ capacity` is lost.  This is
what happens to the empty container after `push_back(t)`, `clear()` and
`pop_back()`. -/
theorem pop_back_at_size_zero (v : vector) (h : Heap T) (t : Ref T)
    (h0 : v.size = 0) (hmem : 1 ≤ h.avail) :
    (v.data = 0 → v.pop_back h = (h, v)) ∧
    ((v.pop_back h).2 = v ↔ v.data = 0) ∧
    (v.data ≠ 0 → (v.pop_back h).2.size = 2 ^ 64 - 1 ∧
      (v.capacity < 2 ^ 64 - 1 → ¬ (v.pop_back h).2.size_le_capacity)) ∧
    (∃ h1 v1, vector.ctor.push_back h t = .ok (h1, v1) ∧
      (v1.clear h1).2.size = 0 ∧
      ((v1.clear h1).2.pop_back (v1.clear h1).1).2.size = 2 ^ 64 - 1 ∧
      ¬ ((v1.clear h1).2.pop_back (v1.clear h1).1).2.size_le_capacity) := by
  unfold vector.size at h0
  have hpop : v.data ≠ 0 → (v.pop_back h).2.numElements = 2 ^ 64 - 1 := by
    intro hd
    simp only [vector.pop_back, if_pos hd, h0, size_sub_zero_one]
  refine ⟨?_, ?_, ?_, ?_⟩
  · intro hd
    have : ¬ v.data ≠ 0 := fun hne => hne hd
    simp only [vector.pop_back, if_neg this]
  · constructor
    · intro e
      by_contra hd
      have h1 := hpop hd
      rw [e, h0] at h1
      exact absurd h1 (by decide)
    · intro hd
      have : ¬ v.data ≠ 0 := fun hne => hne hd
      simp only [vector.pop_back, if_neg this]
  · intro hd
    refine ⟨hpop hd, ?_⟩
    intro hc hle
    unfold vector.size_le_capacity at hle
    rw [hpop hd] at hle
    have hcap : (v.pop_back h).2.numCapacity = v.numCapacity := by
      simp only [vector.pop_back, if_pos hd]
    rw [hcap] at hle
    unfold vector.capacity at hc
    omega
  · have hav : 1 ≤ h.avail := hmem
    have hpush : vector.ctor.push_back h t
        = .ok ((reserve_heap vector.ctor h 1).construct_ref (h.brk + 1 + 0) t,
          ⟨h.brk + 1, 1, 1⟩) := by
      simp [vector.push_back, vector.size, vector.capacity, vector.ctor,
        reserve_grow ⟨0, 0, 0⟩ h 1 (by decide) hav, wrap_of_lt]
    refine ⟨_, _, hpush, rfl, ?_, ?_⟩
    · have hd : h.brk + 1 ≠ 0 := by omega
      simp only [vector.clear, vector.pop_back, vector.size, ne_eq, hd, not_false_eq_true,
        if_true, size_sub_zero_one]
    · have hd : h.brk + 1 ≠ 0 := by omega
      simp only [vector.clear, vector.pop_back, vector.size_le_capacity, ne_eq, hd,
        not_false_eq_true, if_true, size_sub_zero_one]
      decide

/-- Witness of C20: `pop_back()` on the container `⟨1, 1, 0⟩`, whose storage is
present and whose size is 0. -/
theorem pop_back_at_size_zero_witness :
    ((⟨1, 1, 0⟩ : vector).pop_back (Heap.of_list ([] : List Nat) 1 4)).2.size = 2 ^ 64 - 1 ∧
    ¬ ((⟨1, 1, 0⟩ : vector).pop_back (Heap.of_list ([] : List Nat) 1 4)).2.size_le_capacity :=
  let w := (pop_back_at_size_zero ⟨1, 1, 0⟩ (Heap.of_list ([] : List Nat) 1 4) (.val 7) rfl
    (by decide)).2.2.1 (by decide)
  ⟨w.1, w.2 (by decide)⟩

/-- Witness of C19: the cursor of the container holding 7, 8, advanced once. -/
theorem cursor_bounds_live_region_witness :
    (Nat.iterate iterator.inc 1 (⟨1, 4, 2⟩ : vector).begin).deref
        (Heap.of_list [7, 8] 2 9 : Heap Nat)
      = (⟨1, 4, 2⟩ : vector).index (Heap.of_list [7, 8] 2 9) 1 :=
  (cursor_bounds_live_region ⟨1, 4, 2⟩ (Heap.of_list [7, 8] 2 9 : Heap Nat) ⟨1⟩).1 1 (by decide)

/-! ## C12: copy assignment -/

/-- Memory after the loop constructing `d[i]` from `s[i]` for `i` in
`[lo, lo + n)`, the two ranges not overlapping. -/
theorem copy_loop_mem_disjoint (d s n lo : Nat) (h : Heap T)
    (hsep : s + lo + n ≤ d + lo ∨ d + lo + n ≤ s + lo) (a : Nat) :
    (forLoop (fun i m => m.construct_from (d + i) (s + i)) lo n h).mem a
      = if d + lo ≤ a ∧ a < d + lo + n then h.mem (s + (a - d)) else h.mem a := by
  induction n generalizing lo h with
  | zero => simp only [forLoop]; rw [if_neg (by omega)]
  | succ n ih =>
    simp only [forLoop]; rw [ih _ _ (by omega)]
    simp only [Heap.construct_from, Heap.store_mem]
    split_ifs <;> first | rfl | omega | (congr 1; omega)

theorem assign_body_eq (k d s : Nat) :
    (fun (i : Nat) (m : Heap T) =>
      if i < k then m.assign_from (d + i) (s + i) else m.construct_from (d + i) (s + i))
      = fun i m => m.construct_from (d + i) (s + i) := by
  funext i m
  split <;> rfl

theorem assign_copy_reallocates (h : Heap T) (o : Nat → vector) (this rhs : Nat)
    (hne : this ≠ rhs) (hgt : (o rhs).numElements > (o this).numCapacity)
    (hmem : (o rhs).numElements ≤ h.avail) :
    vector.assign_copy h o this rhs = .ok (assign_heap h (o this) (o rhs),
      Function.update o this ⟨h.brk + 1, (o rhs).numElements, (o rhs).numElements⟩) := by
  have he2 : rhs ≠ this := fun e => hne e.symm
  simp only [vector.assign_copy, assign_heap, ne_eq, hne, not_false_eq_true, if_true, gt_iff_lt,
    hgt, Heap.allocate, hmem, Function.update_same, Function.update_idem,
    Function.update_noteq he2]

theorem assign_heap_mem (h : Heap T) (a b : vector) (hmem : b.numElements ≤ h.avail)
    (hb : b.data + b.numElements ≤ h.brk + 1) (x : Nat) :
    (assign_heap h a b).mem x
      = if a.data ≤ x ∧ x < a.data + a.numElements then none
        else if h.brk + 1 ≤ x ∧ x < h.brk + 1 + b.numElements then
          h.mem (b.data + (x - (h.brk + 1)))
        else h.mem x := by
  simp only [assign_heap, Heap.allocate, hmem, if_true, forRange, Heap.deallocate_mem,
    Nat.sub_zero]
  rw [destroy_loop_mem, copy_loop_mem _ _ _ _ _ (by omega)]
  simp only [Nat.add_zero]
  split_ifs <;> first | rfl | omega

theorem assign_copy_in_place (h : Heap T) (o : Nat → vector) (this rhs : Nat)
    (hne : this ≠ rhs) (hle : ¬ (o rhs).numElements > (o this).numCapacity) :
    vector.assign_copy h o this rhs = .ok (assign_heap_in_place h (o this) (o rhs),
      Function.update o this { o this with numElements := (o rhs).numElements }) := by
  simp only [vector.assign_copy, assign_heap_in_place, ne_eq, hne, not_false_eq_true, if_true,
    gt_iff_lt, hle, if_false]

theorem assign_heap_in_place_mem (h : Heap T) (a b : vector)
    (hsep : b.data + b.numElements ≤ a.data ∨ a.data + b.numElements ≤ b.data) (x : Nat) :
    (assign_heap_in_place h a b).mem x
      = if a.data + b.numElements ≤ x ∧
          x < a.data + b.numElements + (a.numElements - b.numElements) then none
        else if a.data ≤ x ∧ x < a.data + b.numElements then h.mem (b.data + (x - a.data))
        else h.mem x := by
  simp only [assign_heap_in_place, forRange, Nat.sub_zero]
  rw [destroy_loop_mem, assign_body_eq, copy_loop_mem_disjoint _ _ _ _ _ (by omega)]
  simp only [Nat.add_zero]

/-- C12: for two distinct containers `a` and `b` with `size ≤ capacity`, whose
blocks the allocator has handed out and do not overlap (and `b.size()` slots
available when `b.size()` exceeds the capacity of `a`), `a = b` returns
normally; afterwards `a.size() == b.size()`, `a[i] == b[i]` for every
`i < b.size()`, the capacity of `a` is `b.size()` when that exceeded its old
capacity and its old capacity otherwise, and `b` (members and elements) is
unchanged.  Assigning a container to itself changes nothing. -/
theorem assign_copy_copies (h : Heap T) (o : Nat → vector) (this rhs : Nat)
    (hne : this ≠ rhs)
    (ha : (o this).size_le_capacity) (hb : (o rhs).size_le_capacity)
    (howna : h.holds (o this)) (hownb : h.holds (o rhs))
    (hdisj : (o this).data + (o this).numCapacity ≤ (o rhs).data ∨
      (o rhs).data + (o rhs).numCapacity ≤ (o this).data)
    (hmem : (o rhs).size > (o this).capacity → (o rhs).size ≤ h.avail) :
    (∃ h1 o1, vector.assign_copy h o this rhs = .ok (h1, o1) ∧
      (o1 this).size = (o rhs).size ∧
      (∀ i, i < (o rhs).size → (o1 this).index h1 i = (o rhs).index h i) ∧
      (o1 this).capacity
        = (if (o rhs).size > (o this).capacity then (o rhs).size else (o this).capacity) ∧
      o1 rhs = o rhs ∧
      (∀ i, i < (o rhs).size → (o rhs).index h1 i = (o rhs).index h i)) ∧
    vector.assign_copy h o this this = .ok (h, o) := by
  unfold vector.size_le_capacity Heap.holds vector.size vector.capacity at *
  have he2 : rhs ≠ this := fun e => hne e.symm
  refine ⟨?_, by simp [vector.assign_copy]⟩
  by_cases hgt : (o rhs).numElements > (o this).numCapacity
  · have hm := hmem hgt
    refine ⟨_, _, assign_copy_reallocates h o this rhs hne hgt hm, ?_, ?_, ?_, ?_, ?_⟩
    · rw [Function.update_same]
    · intro i hi
      rw [Function.update_same]
      show (assign_heap h (o this) (o rhs)).mem (h.brk + 1 + i) = h.mem ((o rhs).data + i)
      rw [assign_heap_mem h _ _ hm (by omega), if_neg (by omega), if_pos (by omega)]
      congr 1; omega
    · rw [Function.update_same, if_pos hgt]
    · rw [Function.update_noteq he2]
    · intro i hi
      show (assign_heap h (o this) (o rhs)).mem ((o rhs).data + i) = h.mem ((o rhs).data + i)
      rw [assign_heap_mem h _ _ hm (by omega), if_neg (by omega), if_neg (by omega)]
  · refine ⟨_, _, assign_copy_in_place h o this rhs hne hgt, ?_, ?_, ?_, ?_, ?_⟩
    · rw [Function.update_same]
    · intro i hi
      rw [Function.update_same]
      show (assign_heap_in_place h (o this) (o rhs)).mem ((o this).data + i)
        = h.mem ((o rhs).data + i)
      rw [assign_heap_in_place_mem h _ _ (by omega), if_neg (by omega), if_pos (by omega)]
      congr 1; omega
    · rw [Function.update_same, if_neg hgt]
    · rw [Function.update_noteq he2]
    · intro i hi
      show (assign_heap_in_place h (o this) (o rhs)).mem ((o rhs).data + i)
        = h.mem ((o rhs).data + i)
      rw [assign_heap_in_place_mem h _ _ (by omega), if_neg (by omega), if_neg (by omega)]

/-- Witness of C12: `a = b` for `a` holding 5 (capacity 1) and `b` holding 7, 8. -/
theorem assign_copy_copies_witness :
    ∃ h1 o1, vector.assign_copy demo_heap demo_objs 0 1 = .ok (h1, o1) ∧
      (o1 0).size = (demo_objs 1).size ∧
      (∀ i, i < (demo_objs 1).size → (o1 0).index h1 i = (demo_objs 1).index demo_heap i) ∧
      (o1 0).capacity = 2 :=
  let ⟨h1, o1, e, hs, hel, hc, _⟩ :=
    (assign_copy_copies demo_heap demo_objs 0 1 (by decide) (by decide) (by decide)
      (by decide) (by decide) (by decide) (by decide)).1
  ⟨h1, o1, e, hs, hel, hc⟩

end custom
